import Mathlib

/-!
# MatchSolver: label rewriting, index filters and the vertex-fetch plan

A shallow embedding of `src/planner/match/MatchSolver.cpp`.

Expression trees are an inductive type whose constructors are the expression
classes the file builds or inspects.  Nullable pointers are `Option`, a failed
`DCHECK` or an undefined access is `none` of the enclosing computation, and a
function that changes one of its arguments returns the new value next to its
result.
-/

namespace Nebula

/-! ## Data model -/

/-- Modelled from the spec: the `Value` a `ConstantExpression` holds (declared in
the common library). Floats are kept as their bit pattern: nothing here
computes with them. -/
inductive Value where
  | nullV
  | boolV (b : Bool)
  | intV (i : Int)
  | floatV (bits : Nat)
  | strV (s : String)
  deriving DecidableEq, Repr

/-- Modelled from the spec: the closed kind enumeration `Expression::Kind`, the
part of it that `MatchSolver.cpp` mentions and the two kinds (`kRelNE`,
`kLogicalOr`) that stand for what it rejects. -/
inductive Kind where
  | kConstant
  | kRelEQ | kRelNE | kRelLT | kRelLE | kRelGT | kRelGE
  | kLogicalAnd | kLogicalOr
  | kUnaryNot
  | kLabel | kLabelAttribute
  | kAttribute
  | kVertex | kEdge
  | kVarProperty | kTagProperty | kEdgeProperty | kInputProperty
  | kFunctionCall
  | kPathBuild
  deriving DecidableEq, Repr

/-- Kinds a `RelationalExpression` can carry. -/
inductive RelKind where
  | EQ | NE | LT | LE | GT | GE
  deriving DecidableEq, Repr

/-- Kinds a `LogicalExpression` can carry. -/
inductive LogicalKind where
  | And | Or
  deriving DecidableEq, Repr

/-- Modelled from the spec: expression trees, one constructor per expression
class that `MatchSolver.cpp` builds or inspects. `labelAttribute left right` is a
`LabelAttributeExpression` whose left child is the `LabelExpression` named
`left` and whose right child is the `ConstantExpression` holding the field
name `right`; a `LogicalExpression` has an operand vector, the two-argument
constructor being the vector of length two. -/
inductive Expr where
  | constant (v : Value)
  | label (name : String)
  | labelAttribute (left : String) (right : String)
  | relational (kind : RelKind) (left right : Expr)
  | logical (kind : LogicalKind) (operands : List Expr)
  | unaryNot (operand : Expr)
  | attribute (left right : Expr)
  | vertex
  | edge
  | variableProperty (scope : String) (name : String)
  | tagProperty (tag : String) (prop : String)
  | edgeProperty (edge : String) (prop : String)
  | inputProperty (prop : String)
  | functionCall (name : String) (args : List Expr)
  | pathBuild (items : List Expr)
  deriving Repr

/-- Kind of a relational node. -/
def RelKind.toKind : RelKind → Kind
  | .EQ => .kRelEQ
  | .NE => .kRelNE
  | .LT => .kRelLT
  | .LE => .kRelLE
  | .GT => .kRelGT
  | .GE => .kRelGE

/-- Kind of a logical node. -/
def LogicalKind.toKind : LogicalKind → Kind
  | .And => .kLogicalAnd
  | .Or => .kLogicalOr

/-- The method `Expression::kind()`. -/
def Expr.kind : Expr → Kind
  | .constant _ => .kConstant
  | .label _ => .kLabel
  | .labelAttribute _ _ => .kLabelAttribute
  | .relational k _ _ => k.toKind
  | .logical k _ => k.toKind
  | .unaryNot _ => .kUnaryNot
  | .attribute _ _ => .kAttribute
  | .vertex => .kVertex
  | .edge => .kEdge
  | .variableProperty _ _ => .kVarProperty
  | .tagProperty _ _ => .kTagProperty
  | .edgeProperty _ _ => .kEdgeProperty
  | .inputProperty _ => .kInputProperty
  | .functionCall _ _ => .kFunctionCall
  | .pathBuild _ => .kPathBuild

/-! ## RewriteVisitor -/

mutual
/-- Modelled from the spec: `RewriteVisitor::transform`, declared in
`visitor/RewriteVisitor.h`, has its body in another file. A full pre-order walk:
a node the matcher accepts is replaced by what the rewriter returns for it, a
composite node it rejects is rebuilt with its transformed children, a leaf it
rejects is cloned as it is. The rewriter may fail (`none`), and then so does
the walk. -/
def RewriteVisitor.transform (matcher : Expr → Bool) (rewriter : Expr → Option Expr) :
    Expr → Option Expr
  | .constant v => if matcher (.constant v) then rewriter (.constant v) else some (.constant v)
  | .label n => if matcher (.label n) then rewriter (.label n) else some (.label n)
  | .labelAttribute l r =>
    if matcher (.labelAttribute l r) then rewriter (.labelAttribute l r)
    else some (.labelAttribute l r)
  | .relational k l r =>
    if matcher (.relational k l r) then rewriter (.relational k l r)
    else
      match RewriteVisitor.transform matcher rewriter l,
            RewriteVisitor.transform matcher rewriter r with
      | some l', some r' => some (.relational k l' r')
      | _, _ => none
  | .logical k ops =>
    if matcher (.logical k ops) then rewriter (.logical k ops)
    else
      match RewriteVisitor.transformList matcher rewriter ops with
      | some ops' => some (.logical k ops')
      | none => none
  | .unaryNot o =>
    if matcher (.unaryNot o) then rewriter (.unaryNot o)
    else
      match RewriteVisitor.transform matcher rewriter o with
      | some o' => some (.unaryNot o')
      | none => none
  | .attribute l r =>
    if matcher (.attribute l r) then rewriter (.attribute l r)
    else
      match RewriteVisitor.transform matcher rewriter l,
            RewriteVisitor.transform matcher rewriter r with
      | some l', some r' => some (.attribute l' r')
      | _, _ => none
  | .vertex => if matcher .vertex then rewriter .vertex else some .vertex
  | .edge => if matcher .edge then rewriter .edge else some .edge
  | .variableProperty s n =>
    if matcher (.variableProperty s n) then rewriter (.variableProperty s n)
    else some (.variableProperty s n)
  | .tagProperty t p =>
    if matcher (.tagProperty t p) then rewriter (.tagProperty t p) else some (.tagProperty t p)
  | .edgeProperty t p =>
    if matcher (.edgeProperty t p) then rewriter (.edgeProperty t p)
    else some (.edgeProperty t p)
  | .inputProperty p =>
    if matcher (.inputProperty p) then rewriter (.inputProperty p) else some (.inputProperty p)
  | .functionCall n args =>
    if matcher (.functionCall n args) then rewriter (.functionCall n args)
    else
      match RewriteVisitor.transformList matcher rewriter args with
      | some args' => some (.functionCall n args')
      | none => none
  | .pathBuild items =>
    if matcher (.pathBuild items) then rewriter (.pathBuild items)
    else
      match RewriteVisitor.transformList matcher rewriter items with
      | some items' => some (.pathBuild items')
      | none => none
/-- Modelled from the spec: the walk of `RewriteVisitor::transform` over an
operand or argument vector, front to back. -/
def RewriteVisitor.transformList (matcher : Expr → Bool) (rewriter : Expr → Option Expr) :
    List Expr → Option (List Expr)
  | [] => some []
  | e :: es =>
    match RewriteVisitor.transform matcher rewriter e,
          RewriteVisitor.transformList matcher rewriter es with
    | some e', some es' => some (e' :: es')
    | _, _ => none
end

/-! ## MatchSolver: the three label rewrites -/

/-- The `matcher` lambda shared by the three rewrites. -/
def MatchSolver.labelMatcher (e : Expr) : Bool :=
  e.kind == Kind.kLabel || e.kind == Kind.kLabelAttribute

/-- The `rewriter` lambda of `rewriteLabel2Vertex`; `none` is a failed `DCHECK`. -/
def MatchSolver.vertexRewriter (e : Expr) : Option Expr :=
  if e.kind == Kind.kLabelAttribute || e.kind == Kind.kLabel then
    match e with
    | .labelAttribute _ right => some (.attribute .vertex (.constant (.strV right)))
    | _ => some .vertex
  else none

/-- The `rewriter` lambda of `rewriteLabel2Edge`; `none` is a failed `DCHECK`. -/
def MatchSolver.edgeRewriter (e : Expr) : Option Expr :=
  if e.kind == Kind.kLabelAttribute || e.kind == Kind.kLabel then
    match e with
    | .labelAttribute _ right => some (.attribute .edge (.constant (.strV right)))
    | _ => some .edge
  else none

/-- The `rewriter` lambda of `rewriteLabel2VarProp`; `none` is a failed `DCHECK`
(or a cast to a class the node does not have). -/
def MatchSolver.varPropRewriter (e : Expr) : Option Expr :=
  if e.kind == Kind.kLabelAttribute || e.kind == Kind.kLabel then
    match e with
    | .labelAttribute left right =>
      some (.attribute (.variableProperty "" left) (.constant (.strV right)))
    | .label name => some (.variableProperty "" name)
    | _ => none
  else none

/-- `MatchSolver::rewriteLabel2Vertex`. -/
def MatchSolver.rewriteLabel2Vertex (expr : Expr) : Option Expr :=
  RewriteVisitor.transform MatchSolver.labelMatcher MatchSolver.vertexRewriter expr

/-- `MatchSolver::rewriteLabel2Edge`. -/
def MatchSolver.rewriteLabel2Edge (expr : Expr) : Option Expr :=
  RewriteVisitor.transform MatchSolver.labelMatcher MatchSolver.edgeRewriter expr

/-- `MatchSolver::rewriteLabel2VarProp`. -/
def MatchSolver.rewriteLabel2VarProp (expr : Expr) : Option Expr :=
  RewriteVisitor.transform MatchSolver.labelMatcher MatchSolver.varPropRewriter expr

/-! ## MatchSolver: index filters -/

/-- The method `Expression::clone()`: a deep copy, structurally the same tree. -/
def Expr.clone (e : Expr) : Expr := e

/-- The `makePropExpr` lambda of the map overload, also the `tpExpr` choice of the
filter overload: an edge-property node when the flag is set, a tag-property
node otherwise. -/
def MatchSolver.makePropExpr (label : String) (isEdgeProperties : Bool) (prop : String) : Expr :=
  if isEdgeProperties then .edgeProperty label prop else .tagProperty label prop

/-- `MatchSolver::makeIndexFilter(label, map, qctx, isEdgeProperties)`, the map
overload. A `MapExpression` is its item vector. The loop appends one operand
per item; the returned pointer is the root. -/
def MatchSolver.makeIndexFilterFromMap (label : String) (map : List (String × Expr))
    (isEdgeProperties : Bool) : Option Expr :=
  let operands : List Expr := map.foldl
    (fun operands item =>
      operands ++ [Expr.relational .EQ
        (MatchSolver.makePropExpr label isEdgeProperties item.1) item.2.clone])
    []
  some (.logical .And operands)

mutual
/-- Modelled from the spec: `ExpressionUtils::pullAnds`, declared in
`util/ExpressionUtils.h`, has its body in another file. The conjuncts of an
expression: a logical-AND contributes the conjuncts of its operands, in order,
anything else is one conjunct. -/
def ExpressionUtils.pullAndsImpl : Expr → List Expr
  | .logical .And ops => ExpressionUtils.pullAndsOperands ops
  | .logical .Or ops => [.logical .Or ops]
  | .constant v => [.constant v]
  | .label n => [.label n]
  | .labelAttribute l r => [.labelAttribute l r]
  | .relational k l r => [.relational k l r]
  | .unaryNot o => [.unaryNot o]
  | .attribute l r => [.attribute l r]
  | .vertex => [.vertex]
  | .edge => [.edge]
  | .variableProperty a b => [.variableProperty a b]
  | .tagProperty a b => [.tagProperty a b]
  | .edgeProperty a b => [.edgeProperty a b]
  | .inputProperty a => [.inputProperty a]
  | .functionCall n args => [.functionCall n args]
  | .pathBuild items => [.pathBuild items]
/-- Modelled from the spec: the flat operand list that `pullAnds` leaves in a
logical-AND whose operands were `ops`: all AND-ed operands, pulled up
recursively, left to right. -/
def ExpressionUtils.pullAndsOperands : List Expr → List Expr
  | [] => []
  | e :: es => ExpressionUtils.pullAndsImpl e ++ ExpressionUtils.pullAndsOperands es
end

/-- The static set `kinds` of the filter overload. -/
def MatchSolver.kinds : List Kind :=
  [Kind.kRelEQ, Kind.kRelLT, Kind.kRelLE, Kind.kRelGT, Kind.kRelGE]

/-- One pass of the loop over `ands` in the filter overload: `none` when the
pass ends in `continue`, `some rel` when it appends `rel` to `relationals`. -/
def MatchSolver.indexConjunct (label alias_ : String) (isEdgeProperties : Bool)
    (item : Expr) : Option Expr :=
  if MatchSolver.kinds.count item.kind != 1 then none
  else
    match item with
    | .relational kind (.labelAttribute laLeft laRight) (.constant c) =>
      if laLeft != alias_ then none
      else
        some (.relational kind (MatchSolver.makePropExpr label isEdgeProperties laRight)
          (Expr.constant c).clone)
    | .relational kind (.constant c) (.labelAttribute laLeft laRight) =>
      if laLeft != alias_ then none
      else
        some (.relational kind (Expr.constant c).clone
          (MatchSolver.makePropExpr label isEdgeProperties laRight))
    | _ => none

/-- The part of the filter overload after `ands` is filled: collect the
relationals, return null when there is none, else fold them with the binary
`LogicalExpression(kLogicalAnd, left, relationals[i])`. -/
def MatchSolver.indexFilterOfAnds (label alias_ : String) (isEdgeProperties : Bool)
    (ands : List Expr) : Option Expr :=
  let relationals : List Expr := ands.foldl
    (fun relationals item =>
      match MatchSolver.indexConjunct label alias_ isEdgeProperties item with
      | none => relationals
      | some rel => relationals ++ [rel])
    []
  match relationals with
  | [] => none
  | first :: rest =>
    some (rest.foldl (fun root rel => Expr.logical .And [root, rel]) first)

/-- `MatchSolver::makeIndexFilter(label, alias, filter, qctx, isEdgeProperties)`,
the filter overload. The first component is the returned pointer, the second
the tree `filter` points to after the call (`pullAnds` works on it in place). -/
def MatchSolver.makeIndexFilter (label alias_ : String) (filter : Expr)
    (isEdgeProperties : Bool) : Option Expr × Expr :=
  if MatchSolver.kinds.count filter.kind == 1 then
    (MatchSolver.indexFilterOfAnds label alias_ isEdgeProperties [filter], filter)
  else
    match filter with
    | .logical .And operands =>
      let pulled := ExpressionUtils.pullAndsOperands operands
      (MatchSolver.indexFilterOfAnds label alias_ isEdgeProperties pulled,
        .logical .And pulled)
    | _ => (none, filter)

/-- The left-to-right AND-fold continued from an accumulated tree. -/
def andFoldFrom (acc : Expr) : List Expr → Expr
  | [] => acc
  | rel :: rels => andFoldFrom (.logical .And [acc, rel]) rels

/-- The left-to-right AND-fold of a list of conjuncts as the specification
words it: null for no conjunct, the conjunct itself for one, and
`(fold of the first n) AND (the next one)` for more. -/
def andFold : List Expr → Option Expr
  | [] => none
  | rel :: rels => some (andFoldFrom rel rels)

/-- A qualifying conjunct as the specification words it: one of the five
relational kinds, one side a `LabelAttribute` whose label name is the alias,
the other side a `Constant`. -/
def qualifies (alias_ : String) : Expr → Bool
  | .relational k (.labelAttribute l _) (.constant _) =>
    (k == .EQ || k == .LT || k == .LE || k == .GT || k == .GE) && l == alias_
  | .relational k (.constant _) (.labelAttribute l _) =>
    (k == .EQ || k == .LT || k == .LE || k == .GT || k == .GE) && l == alias_
  | _ => false

/-- The rewriting of a conjunct as the specification words it: a qualifying
conjunct becomes the relational of the same kind with the property accessor
(edge property when the flag is set, tag property otherwise, of the label and
the field) on the side where the `LabelAttribute` stood and the constant on the
other side; a conjunct that does not qualify is dropped (`none`). -/
def rewriteQualifying (label alias_ : String) (isEdgeProperties : Bool) (c : Expr) :
    Option Expr :=
  if qualifies alias_ c then
    match c with
    | .relational k (.labelAttribute _ field) (.constant v) =>
      some (.relational k
        (if isEdgeProperties then .edgeProperty label field else .tagProperty label field)
        (.constant v))
    | .relational k (.constant v) (.labelAttribute _ field) =>
      some (.relational k (.constant v)
        (if isEdgeProperties then .edgeProperty label field else .tagProperty label field))
    | _ => none
  else none

/-! ## MatchSolver: the vertex-fetch plan -/

/-- Modelled from the spec: the reserved name of the id column, a constant
declared in another file. -/
def kVid : String := "_vid"

/-- Modelled from the spec: the reserved name of the path column, a constant
declared in another file. -/
def kPathStr : String := "_path"

/-- A `YieldColumn` made from an expression alone. -/
structure YieldColumn where
  expr : Expr

/-- A `storage::cpp2::VertexProp`: a tag and the properties asked of it. -/
structure VertexProp where
  tag : Int
  props : List String
  deriving DecidableEq, Repr

/-- The part of `SpaceInfo` the file reads. -/
structure SpaceInfo where
  id : Int
  name : String
  deriving DecidableEq, Repr

/-- A `Status`: OK, or an error with its message. -/
inductive Status where
  | OK
  | Error (msg : String)
  deriving DecidableEq, Repr

/-- Modelled from the spec: plan nodes (the classes of `planner/plan/Query.h`
are declared in another file). Each node has its dependency, its output column
names, and what its `make` is given. `inputVar = none` is the default binding (the output of
the dependency). `upstream` stands for any operator this file does not build. -/
inductive PlanNode where
  | upstream (kind : String) (colNames : List String)
  | project (dep : Option PlanNode) (inputVar : Option String) (columns : List YieldColumn)
      (colNames : List String)
  | dedup (dep : Option PlanNode) (colNames : List String)
  | filter (dep : Option PlanNode) (condition : Expr) (colNames : List String)
  | getVertices (dep : Option PlanNode) (space : Int) (src : Expr) (props : List VertexProp)
      (exprs : List Expr) (colNames : List String)

/-- The method `PlanNode::colNames()`. -/
def PlanNode.colNames : PlanNode → List String
  | .upstream _ c => c
  | .project _ _ _ c => c
  | .dedup _ c => c
  | .filter _ _ c => c
  | .getVertices _ _ _ _ _ c => c

/-- The method `PlanNode::setColNames`. -/
def PlanNode.setColNames (cols : List String) : PlanNode → PlanNode
  | .upstream k _ => .upstream k cols
  | .project d v ys _ => .project d v ys cols
  | .dedup d _ => .dedup d cols
  | .filter d c _ => .filter d c cols
  | .getVertices d s e ps es _ => .getVertices d s e ps es cols

/-- The method `SingleInputNode::setInputVar`, used on the `Project` only. -/
def PlanNode.setInputVar (var : String) : PlanNode → PlanNode
  | .project d _ ys c => .project d (some var) ys c
  | n => n

/-- Modelled from the spec: `Project::make(qctx, dep, columns)`, a new node
without column names yet. -/
def Project.make (dep : Option PlanNode) (columns : List YieldColumn) : PlanNode :=
  .project dep none columns []

/-- Modelled from the spec: `Dedup::make(qctx, dep)`, a new node without column
names yet. -/
def Dedup.make (dep : Option PlanNode) : PlanNode :=
  .dedup dep []

/-- Modelled from the spec: `Filter::make(qctx, dep, condition)`, a new node
without column names yet. -/
def Filter.make (dep : Option PlanNode) (condition : Expr) : PlanNode :=
  .filter dep condition []

/-- Modelled from the spec: `GetVertices::make(qctx, dep, space, src, props,
exprs)`, a new node without column names yet. -/
def GetVertices.make (dep : Option PlanNode) (space : Int) (src : Expr)
    (props : List VertexProp) (exprs : List Expr) : PlanNode :=
  .getVertices dep space src props exprs []

/-- A `SubPlan`: root and tail of the plan fragment built so far. -/
structure SubPlan where
  root : Option PlanNode
  tail : Option PlanNode

/-- What the file asks of the query context: the symbol table (`getVar(name)`,
null for an unknown variable, otherwise the column names of the variable) and
the schema lookup behind `SchemaUtil::getAllVertexProp(qctx, space, true)`,
which lists the vertex properties of a space or fails with a message. -/
structure QueryContext where
  getVar : String → Option (List String)
  getAllVertexProp : SpaceInfo → Except String (List VertexProp)

/-- Modelled from the spec: `ExpressionUtils::inputPropExpr`, whose body is in
another file: the input-property node of a column. -/
def ExpressionUtils.inputPropExpr (prop : String) : Expr := .inputProperty prop

/-- `MatchSolver::getEndVidInPath`. -/
def MatchSolver.getEndVidInPath (colName : String) : Expr :=
  let columnExpr := ExpressionUtils.inputPropExpr colName
  let endNode := Expr.functionCall "endNode" [columnExpr]
  let vidExpr := Expr.constant (.strV kVid)
  .attribute endNode vidExpr

/-- `MatchSolver::getStartVidInPath`. -/
def MatchSolver.getStartVidInPath (colName : String) : Expr :=
  let columnExpr := ExpressionUtils.inputPropExpr colName
  let firstVertexExpr := Expr.functionCall "startNode" [columnExpr]
  .attribute firstVertexExpr (.constant (.strV kVid))

/-- `MatchSolver::initialExprOrEdgeDstExpr`. -/
def MatchSolver.initialExprOrEdgeDstExpr (initialExpr : Option Expr) (vidCol : String) : Expr :=
  match initialExpr with
  | some e => e
  | none => MatchSolver.getEndVidInPath vidCol

/-- `MatchSolver::extractAndDedupVidColumn`; the result is `plan` after the
call. `none` when the variable is unknown to the symbol table or has no column
(`var->colNames.back()` is then undefined). -/
def MatchSolver.extractAndDedupVidColumn (qctx : QueryContext) (initialExpr : Option Expr)
    (dep : Option PlanNode) (inputVar : String) (plan : SubPlan) : Option SubPlan :=
  match qctx.getVar inputVar with
  | none => none
  | some colNames =>
    match colNames.getLast? with
    | none => none
    | some back =>
      let vidExpr := MatchSolver.initialExprOrEdgeDstExpr initialExpr back
      let columns := [YieldColumn.mk vidExpr]
      let project := ((Project.make dep columns).setInputVar inputVar).setColNames [kVid]
      let dedup := (Dedup.make (some project)).setColNames [kVid]
      some { plan with root := some dedup }

/-- `MatchSolver::filtPathHasSameEdge`. -/
def MatchSolver.filtPathHasSameEdge (input : PlanNode) (column : String) : PlanNode :=
  let fnCall := Expr.functionCall "hasSameEdgeInPath" [ExpressionUtils.inputPropExpr column]
  let cond := Expr.unaryNot fnCall
  let filter := Filter.make (some input) cond
  filter.setColNames input.colNames

/-- `MatchSolver::appendFetchVertexPlan`, the overload with `inputVar`; the
result is the returned status and `plan` after the call. `none` when a step is
undefined (see `extractAndDedupVidColumn`) or a `DCHECK` fails. -/
def MatchSolver.appendFetchVertexPlan (nodeFilter : Option Expr) (space : SpaceInfo)
    (qctx : QueryContext) (initialExpr : Option Expr) (inputVar : String) (plan : SubPlan) :
    Option (Status × SubPlan) :=
  match MatchSolver.extractAndDedupVidColumn qctx initialExpr plan.root inputVar plan with
  | none => none
  | some plan =>
    let srcExpr := ExpressionUtils.inputPropExpr kVid
    match qctx.getAllVertexProp space with
    | .error msg => some (Status.Error msg, plan)
    | .ok props =>
      let gv := GetVertices.make plan.root space.id srcExpr props []
      let root : Option PlanNode :=
        match nodeFilter with
        | some nodeFilter =>
          match MatchSolver.rewriteLabel2Vertex nodeFilter with
          | some newFilter => some (Filter.make (some gv) newFilter)
          | none => none
        | none => some gv
      match root with
      | none => none
      | some root =>
        let columns := [YieldColumn.mk (.pathBuild [.vertex])]
        some (Status.OK,
          { plan with root := some ((Project.make (some root) columns).setColNames [kPathStr]) })

/-- The dependency of a single-input node (`SingleInputNode::dep()`); `upstream`
nodes keep theirs to themselves. -/
def PlanNode.dep : PlanNode → Option PlanNode
  | .upstream _ _ => none
  | .project d _ _ _ => d
  | .dedup d _ => d
  | .filter d _ _ => d
  | .getVertices d _ _ _ _ _ => d

/-! ## MatchSolver: doRewrite -/

/-- Modelled from the spec: `AliasType`, the declared kind of a pattern
variable (declared in `context/ast/CypherAstContext.h`). -/
inductive AliasType where
  | kNode
  | kEdge
  | kPath
  deriving DecidableEq, Repr

/-- `MatchSolver::doRewrite`. The alias table is its list of entries, `find`
is the lookup by name. `none` is the failed `DCHECK` (or a cast to a class the
node does not have). -/
def MatchSolver.doRewrite (aliases : List (String × AliasType)) (expr : Expr) : Option Expr :=
  let checked : Option Unit :=
    if expr.kind == Kind.kLabel then
      match expr with
      | .label name =>
        let alias_ := aliases.lookup name
        if alias_.isSome then some () else none
      | _ => none
    else some ()
  match checked with
  | none => none
  | some _ => MatchSolver.rewriteLabel2VarProp expr

/-! ## Specification-side definitions for the rewrites -/

mutual
/-- Whether a tree contains a node of kind `Label` or `LabelAttribute`. -/
def Expr.hasLabel : Expr → Bool
  | .constant _ => false
  | .label _ => true
  | .labelAttribute _ _ => true
  | .relational _ l r => l.hasLabel || r.hasLabel
  | .logical _ ops => Expr.anyHasLabel ops
  | .unaryNot o => o.hasLabel
  | .attribute l r => l.hasLabel || r.hasLabel
  | .vertex => false
  | .edge => false
  | .variableProperty _ _ => false
  | .tagProperty _ _ => false
  | .edgeProperty _ _ => false
  | .inputProperty _ => false
  | .functionCall _ args => Expr.anyHasLabel args
  | .pathBuild items => Expr.anyHasLabel items
/-- Whether some tree of a list contains a label node. -/
def Expr.anyHasLabel : List Expr → Bool
  | [] => false
  | e :: es => e.hasLabel || Expr.anyHasLabel es
end

mutual
/-- The rewrite rules as the specification words them: every `Label(name)` node
becomes `onLabel name`, every `LabelAttribute(L, field)` node becomes
`onAttr L field`, every other node keeps its kind, its payload and its children
in their order. -/
def Expr.substLabels (onLabel : String → Expr) (onAttr : String → String → Expr) :
    Expr → Expr
  | .constant v => .constant v
  | .label n => onLabel n
  | .labelAttribute l r => onAttr l r
  | .relational k l r =>
    .relational k (l.substLabels onLabel onAttr) (r.substLabels onLabel onAttr)
  | .logical k ops => .logical k (Expr.substLabelsList onLabel onAttr ops)
  | .unaryNot o => .unaryNot (o.substLabels onLabel onAttr)
  | .attribute l r =>
    .attribute (l.substLabels onLabel onAttr) (r.substLabels onLabel onAttr)
  | .vertex => .vertex
  | .edge => .edge
  | .variableProperty s n => .variableProperty s n
  | .tagProperty t p => .tagProperty t p
  | .edgeProperty t p => .edgeProperty t p
  | .inputProperty p => .inputProperty p
  | .functionCall n args => .functionCall n (Expr.substLabelsList onLabel onAttr args)
  | .pathBuild items => .pathBuild (Expr.substLabelsList onLabel onAttr items)
/-- The rules applied to each tree of a list, in order. -/
def Expr.substLabelsList (onLabel : String → Expr) (onAttr : String → String → Expr) :
    List Expr → List Expr
  | [] => []
  | e :: es => e.substLabels onLabel onAttr :: Expr.substLabelsList onLabel onAttr es
end

/-- Children of a node, in order. Label nodes are leaves of this model. -/
def Expr.children : Expr → List Expr
  | .relational _ l r => [l, r]
  | .logical _ ops => ops
  | .unaryNot o => [o]
  | .attribute l r => [l, r]
  | .functionCall _ args => args
  | .pathBuild items => items
  | _ => []

/-- The node at a position, a position being the list of child indices that
leads to it from the root. -/
def Expr.nodeAt : Expr → List Nat → Option Expr
  | e, [] => some e
  | e, i :: p =>
    match e.children[i]? with
    | some c => c.nodeAt p
    | none => none

/-- A right-deep nesting of binary ANDs over the conjuncts `c :: cs`:
`c AND (c₁ AND (c₂ AND …))`. The left-deep nesting of the same conjuncts is
`andFoldFrom c cs`, the n-ary one `logical And (c :: cs)`. -/
def rightDeepAnd : Expr → List Expr → Expr
  | c, [] => c
  | c, d :: ds => .logical .And [c, rightDeepAnd d ds]

/-! ## Lemmas on the walk -/

mutual
theorem transform_labelMatcher_eq (rewriter : Expr → Option Expr)
    (onLabel : String → Expr) (onAttr : String → String → Expr)
    (hl : ∀ n, rewriter (.label n) = some (onLabel n))
    (ha : ∀ l r, rewriter (.labelAttribute l r) = some (onAttr l r)) :
    ∀ e : Expr, RewriteVisitor.transform MatchSolver.labelMatcher rewriter e
      = some (e.substLabels onLabel onAttr)
  | .constant _ => by simp [RewriteVisitor.transform, MatchSolver.labelMatcher, Expr.kind, Expr.substLabels]
  | .label n => by simp [RewriteVisitor.transform, MatchSolver.labelMatcher, Expr.kind, Expr.substLabels, hl]
  | .labelAttribute l r => by simp [RewriteVisitor.transform, MatchSolver.labelMatcher, Expr.kind, Expr.substLabels, ha]
  | .relational k l r => by
    have h1 := transform_labelMatcher_eq rewriter onLabel onAttr hl ha l
    have h2 := transform_labelMatcher_eq rewriter onLabel onAttr hl ha r
    cases k <;> simp [RewriteVisitor.transform, MatchSolver.labelMatcher, Expr.kind, RelKind.toKind, Expr.substLabels, h1, h2]
  | .logical k ops => by
    have h1 := transformList_labelMatcher_eq rewriter onLabel onAttr hl ha ops
    cases k <;> simp [RewriteVisitor.transform, MatchSolver.labelMatcher, Expr.kind, LogicalKind.toKind, Expr.substLabels, h1]
  | .unaryNot o => by
    have h1 := transform_labelMatcher_eq rewriter onLabel onAttr hl ha o
    simp [RewriteVisitor.transform, MatchSolver.labelMatcher, Expr.kind, Expr.substLabels, h1]
  | .attribute l r => by
    have h1 := transform_labelMatcher_eq rewriter onLabel onAttr hl ha l
    have h2 := transform_labelMatcher_eq rewriter onLabel onAttr hl ha r
    simp [RewriteVisitor.transform, MatchSolver.labelMatcher, Expr.kind, Expr.substLabels, h1, h2]
  | .vertex => by simp [RewriteVisitor.transform, MatchSolver.labelMatcher, Expr.kind, Expr.substLabels]
  | .edge => by simp [RewriteVisitor.transform, MatchSolver.labelMatcher, Expr.kind, Expr.substLabels]
  | .variableProperty _ _ => by simp [RewriteVisitor.transform, MatchSolver.labelMatcher, Expr.kind, Expr.substLabels]
  | .tagProperty _ _ => by simp [RewriteVisitor.transform, MatchSolver.labelMatcher, Expr.kind, Expr.substLabels]
  | .edgeProperty _ _ => by simp [RewriteVisitor.transform, MatchSolver.labelMatcher, Expr.kind, Expr.substLabels]
  | .inputProperty _ => by simp [RewriteVisitor.transform, MatchSolver.labelMatcher, Expr.kind, Expr.substLabels]
  | .functionCall n args => by
    have h1 := transformList_labelMatcher_eq rewriter onLabel onAttr hl ha args
    simp [RewriteVisitor.transform, MatchSolver.labelMatcher, Expr.kind, Expr.substLabels, h1]
  | .pathBuild items => by
    have h1 := transformList_labelMatcher_eq rewriter onLabel onAttr hl ha items
    simp [RewriteVisitor.transform, MatchSolver.labelMatcher, Expr.kind, Expr.substLabels, h1]
theorem transformList_labelMatcher_eq (rewriter : Expr → Option Expr)
    (onLabel : String → Expr) (onAttr : String → String → Expr)
    (hl : ∀ n, rewriter (.label n) = some (onLabel n))
    (ha : ∀ l r, rewriter (.labelAttribute l r) = some (onAttr l r)) :
    ∀ es : List Expr, RewriteVisitor.transformList MatchSolver.labelMatcher rewriter es
      = some (Expr.substLabelsList onLabel onAttr es)
  | [] => by simp [RewriteVisitor.transformList, Expr.substLabelsList]
  | e :: es => by
    have h1 := transform_labelMatcher_eq rewriter onLabel onAttr hl ha e
    have h2 := transformList_labelMatcher_eq rewriter onLabel onAttr hl ha es
    simp [RewriteVisitor.transformList, Expr.substLabelsList, h1, h2]
end

theorem substLabelsList_eq_map (onLabel : String → Expr) (onAttr : String → String → Expr) :
    ∀ es : List Expr,
      Expr.substLabelsList onLabel onAttr es = es.map (Expr.substLabels onLabel onAttr)
  | [] => by simp [Expr.substLabelsList]
  | e :: es => by simp [Expr.substLabelsList, substLabelsList_eq_map onLabel onAttr es]

mutual
theorem substLabels_hasLabel (onLabel : String → Expr) (onAttr : String → String → Expr)
    (hl : ∀ n, (onLabel n).hasLabel = false) (ha : ∀ l r, (onAttr l r).hasLabel = false) :
    ∀ e : Expr, (e.substLabels onLabel onAttr).hasLabel = false
  | .constant _ => by simp [Expr.substLabels, Expr.hasLabel]
  | .label n => by simp [Expr.substLabels, hl]
  | .labelAttribute l r => by simp [Expr.substLabels, ha]
  | .relational _ l r => by
    simp [Expr.substLabels, Expr.hasLabel, substLabels_hasLabel onLabel onAttr hl ha l,
      substLabels_hasLabel onLabel onAttr hl ha r]
  | .logical _ ops => by
    simp [Expr.substLabels, Expr.hasLabel, substLabelsList_hasLabel onLabel onAttr hl ha ops]
  | .unaryNot o => by
    simp [Expr.substLabels, Expr.hasLabel, substLabels_hasLabel onLabel onAttr hl ha o]
  | .attribute l r => by
    simp [Expr.substLabels, Expr.hasLabel, substLabels_hasLabel onLabel onAttr hl ha l,
      substLabels_hasLabel onLabel onAttr hl ha r]
  | .vertex => by simp [Expr.substLabels, Expr.hasLabel]
  | .edge => by simp [Expr.substLabels, Expr.hasLabel]
  | .variableProperty _ _ => by simp [Expr.substLabels, Expr.hasLabel]
  | .tagProperty _ _ => by simp [Expr.substLabels, Expr.hasLabel]
  | .edgeProperty _ _ => by simp [Expr.substLabels, Expr.hasLabel]
  | .inputProperty _ => by simp [Expr.substLabels, Expr.hasLabel]
  | .functionCall _ args => by
    simp [Expr.substLabels, Expr.hasLabel, substLabelsList_hasLabel onLabel onAttr hl ha args]
  | .pathBuild items => by
    simp [Expr.substLabels, Expr.hasLabel, substLabelsList_hasLabel onLabel onAttr hl ha items]
theorem substLabelsList_hasLabel (onLabel : String → Expr) (onAttr : String → String → Expr)
    (hl : ∀ n, (onLabel n).hasLabel = false) (ha : ∀ l r, (onAttr l r).hasLabel = false) :
    ∀ es : List Expr, Expr.anyHasLabel (Expr.substLabelsList onLabel onAttr es) = false
  | [] => by simp [Expr.substLabelsList, Expr.anyHasLabel]
  | e :: es => by
    simp [Expr.substLabelsList, Expr.anyHasLabel, substLabels_hasLabel onLabel onAttr hl ha e,
      substLabelsList_hasLabel onLabel onAttr hl ha es]
end

mutual
theorem substLabels_of_no_label (onLabel : String → Expr) (onAttr : String → String → Expr) :
    ∀ e : Expr, e.hasLabel = false → e.substLabels onLabel onAttr = e
  | .constant _, _ => by simp [Expr.substLabels]
  | .label n, h => by simp [Expr.hasLabel] at h
  | .labelAttribute l r, h => by simp [Expr.hasLabel] at h
  | .relational _ l r, h => by
    simp [Expr.hasLabel] at h
    simp [Expr.substLabels, substLabels_of_no_label onLabel onAttr l h.1,
      substLabels_of_no_label onLabel onAttr r h.2]
  | .logical _ ops, h => by
    simp [Expr.hasLabel] at h
    simp [Expr.substLabels, substLabelsList_of_no_label onLabel onAttr ops h]
  | .unaryNot o, h => by
    simp [Expr.hasLabel] at h
    simp [Expr.substLabels, substLabels_of_no_label onLabel onAttr o h]
  | .attribute l r, h => by
    simp [Expr.hasLabel] at h
    simp [Expr.substLabels, substLabels_of_no_label onLabel onAttr l h.1,
      substLabels_of_no_label onLabel onAttr r h.2]
  | .vertex, _ => by simp [Expr.substLabels]
  | .edge, _ => by simp [Expr.substLabels]
  | .variableProperty _ _, _ => by simp [Expr.substLabels]
  | .tagProperty _ _, _ => by simp [Expr.substLabels]
  | .edgeProperty _ _, _ => by simp [Expr.substLabels]
  | .inputProperty _, _ => by simp [Expr.substLabels]
  | .functionCall _ args, h => by
    simp [Expr.hasLabel] at h
    simp [Expr.substLabels, substLabelsList_of_no_label onLabel onAttr args h]
  | .pathBuild items, h => by
    simp [Expr.hasLabel] at h
    simp [Expr.substLabels, substLabelsList_of_no_label onLabel onAttr items h]
theorem substLabelsList_of_no_label (onLabel : String → Expr)
    (onAttr : String → String → Expr) :
    ∀ es : List Expr, Expr.anyHasLabel es = false → Expr.substLabelsList onLabel onAttr es = es
  | [], _ => by simp [Expr.substLabelsList]
  | e :: es, h => by
    simp [Expr.anyHasLabel] at h
    simp [Expr.substLabelsList, substLabels_of_no_label onLabel onAttr e h.1,
      substLabelsList_of_no_label onLabel onAttr es h.2]
end

theorem substLabels_kind (onLabel : String → Expr) (onAttr : String → String → Expr)
    (e : Expr) (h : MatchSolver.labelMatcher e = false) :
    (e.substLabels onLabel onAttr).kind = e.kind := by
  cases e <;> simp [Expr.substLabels, Expr.kind, MatchSolver.labelMatcher] at h ⊢

theorem substLabels_child (onLabel : String → Expr) (onAttr : String → String → Expr)
    (e c : Expr) (i : Nat) (h : e.children[i]? = some c) :
    (e.substLabels onLabel onAttr).children[i]? = some (c.substLabels onLabel onAttr) := by
  cases e <;>
    simp [Expr.children, Expr.substLabels, substLabelsList_eq_map] at h ⊢ <;>
    first
      | exact ⟨c, h, rfl⟩
      | (rcases i with _ | _ | k <;> simp_all)

theorem substLabels_nodeAt (onLabel : String → Expr) (onAttr : String → String → Expr) :
    ∀ (p : List Nat) (e s : Expr), e.nodeAt p = some s →
      (e.substLabels onLabel onAttr).nodeAt p = some (s.substLabels onLabel onAttr)
  | [], e, s, h => by
    simp [Expr.nodeAt] at h ⊢
    rw [h]
  | i :: p, e, s, h => by
    simp only [Expr.nodeAt] at h ⊢
    cases hc : e.children[i]? with
    | none => simp [hc] at h
    | some c =>
      rw [hc] at h
      rw [substLabels_child onLabel onAttr e c i hc]
      exact substLabels_nodeAt onLabel onAttr p c s h

theorem vertexRewriter_label (n : String) :
    MatchSolver.vertexRewriter (.label n) = some .vertex := by
  simp [MatchSolver.vertexRewriter, Expr.kind]

theorem vertexRewriter_labelAttribute (l r : String) :
    MatchSolver.vertexRewriter (.labelAttribute l r)
      = some (.attribute .vertex (.constant (.strV r))) := by
  simp [MatchSolver.vertexRewriter, Expr.kind]

theorem edgeRewriter_label (n : String) :
    MatchSolver.edgeRewriter (.label n) = some .edge := by
  simp [MatchSolver.edgeRewriter, Expr.kind]

theorem edgeRewriter_labelAttribute (l r : String) :
    MatchSolver.edgeRewriter (.labelAttribute l r)
      = some (.attribute .edge (.constant (.strV r))) := by
  simp [MatchSolver.edgeRewriter, Expr.kind]

theorem varPropRewriter_label (n : String) :
    MatchSolver.varPropRewriter (.label n) = some (.variableProperty "" n) := by
  simp [MatchSolver.varPropRewriter, Expr.kind]

theorem varPropRewriter_labelAttribute (l r : String) :
    MatchSolver.varPropRewriter (.labelAttribute l r)
      = some (.attribute (.variableProperty "" l) (.constant (.strV r))) := by
  simp [MatchSolver.varPropRewriter, Expr.kind]

theorem rewriteLabel2Vertex_eq (e : Expr) :
    MatchSolver.rewriteLabel2Vertex e
      = some (e.substLabels (fun _ => .vertex)
          (fun _ field => .attribute .vertex (.constant (.strV field)))) :=
  transform_labelMatcher_eq _ _ _ vertexRewriter_label vertexRewriter_labelAttribute e

theorem rewriteLabel2Edge_eq (e : Expr) :
    MatchSolver.rewriteLabel2Edge e
      = some (e.substLabels (fun _ => .edge)
          (fun _ field => .attribute .edge (.constant (.strV field)))) :=
  transform_labelMatcher_eq _ _ _ edgeRewriter_label edgeRewriter_labelAttribute e

theorem rewriteLabel2VarProp_eq (e : Expr) :
    MatchSolver.rewriteLabel2VarProp e
      = some (e.substLabels (fun name => .variableProperty "" name)
          (fun l field => .attribute (.variableProperty "" l) (.constant (.strV field)))) :=
  transform_labelMatcher_eq _ _ _ varPropRewriter_label varPropRewriter_labelAttribute e

/-! ## Lemmas on the index filters -/

theorem foldl_append_singleton {α β : Type} (f : α → β) :
    ∀ (xs : List α) (acc : List β),
      xs.foldl (fun acc x => acc ++ [f x]) acc = acc ++ xs.map f
  | [], acc => by simp
  | x :: xs, acc => by simp [foldl_append_singleton f xs]

theorem foldl_append_some (g : Expr → Option Expr) :
    ∀ (xs : List Expr) (acc : List Expr),
      xs.foldl (fun acc x => match g x with | none => acc | some r => acc ++ [r]) acc
        = acc ++ xs.filterMap g
  | [], acc => by simp
  | x :: xs, acc => by
    cases h : g x with
    | none => simp [List.filterMap_cons, h, foldl_append_some g xs]
    | some r => simp [List.filterMap_cons, h, foldl_append_some g xs]

theorem foldl_and_eq_andFoldFrom :
    ∀ (rest : List Expr) (first : Expr),
      rest.foldl (fun root rel => Expr.logical .And [root, rel]) first = andFoldFrom first rest
  | [], first => by simp [andFoldFrom]
  | r :: rest, first => by simp [andFoldFrom, foldl_and_eq_andFoldFrom rest]

theorem indexFilterOfAnds_eq (label alias_ : String) (isEdgeProperties : Bool)
    (ands : List Expr) :
    MatchSolver.indexFilterOfAnds label alias_ isEdgeProperties ands
      = andFold (ands.filterMap (MatchSolver.indexConjunct label alias_ isEdgeProperties)) := by
  unfold MatchSolver.indexFilterOfAnds
  have h := foldl_append_some (MatchSolver.indexConjunct label alias_ isEdgeProperties) ands []
  simp only [List.nil_append] at h
  simp only [h]
  cases ands.filterMap (MatchSolver.indexConjunct label alias_ isEdgeProperties) with
  | nil => simp [andFold]
  | cons r rs => simp [andFold, foldl_and_eq_andFoldFrom]

theorem andFoldFrom_append (acc : Expr) :
    ∀ (rels : List Expr) (rel : Expr),
      andFoldFrom acc (rels ++ [rel]) = .logical .And [andFoldFrom acc rels, rel] := by
  intro rels
  induction rels generalizing acc with
  | nil => intro rel; simp [andFoldFrom]
  | cons r rs ih => intro rel; simp [andFoldFrom, ih]

theorem andFold_append (rels : List Expr) (rel : Expr) :
    andFold (rels ++ [rel])
      = match andFold rels with
        | none => some rel
        | some acc => some (.logical .And [acc, rel]) := by
  cases rels with
  | nil => simp [andFold, andFoldFrom]
  | cons r rs => simp [andFold, andFoldFrom_append]

theorem kinds_count_relational (k : RelKind) (l r : Expr) :
    (MatchSolver.kinds.count (Expr.relational k l r).kind != 1) = (k == RelKind.NE) := by
  cases k <;> rfl

theorem indexConjunct_eq_some_iff (label alias_ : String) (isEdgeProperties : Bool)
    (item rel : Expr) :
    MatchSolver.indexConjunct label alias_ isEdgeProperties item = some rel ↔
      ∃ (k : RelKind) (field : String) (c : Value), k ≠ RelKind.NE ∧
        ((item = .relational k (.labelAttribute alias_ field) (.constant c) ∧
            rel = .relational k
              (if isEdgeProperties then .edgeProperty label field else .tagProperty label field)
              (.constant c)) ∨
          (item = .relational k (.constant c) (.labelAttribute alias_ field) ∧
            rel = .relational k (.constant c)
              (if isEdgeProperties then .edgeProperty label field
                else .tagProperty label field))) := by
  constructor
  · intro h
    unfold MatchSolver.indexConjunct at h
    split at h
    · simp at h
    · rename_i hk
      split at h
      · rename_i kind laLeft laRight c
        rw [kinds_count_relational] at hk
        split at h
        · simp at h
        · rename_i hne
          simp at hne hk
          simp [MatchSolver.makePropExpr, Expr.clone] at h
          exact ⟨kind, laRight, c, hk, Or.inl ⟨by rw [hne], h.symm⟩⟩
      · rename_i kind c laLeft laRight
        rw [kinds_count_relational] at hk
        split at h
        · simp at h
        · rename_i hne
          simp at hne hk
          simp [MatchSolver.makePropExpr, Expr.clone] at h
          exact ⟨kind, laRight, c, hk, Or.inr ⟨by rw [hne], h.symm⟩⟩
      · simp at h
  · rintro ⟨k, field, c, hk, ⟨rfl, rfl⟩ | ⟨rfl, rfl⟩⟩
    · unfold MatchSolver.indexConjunct
      rw [kinds_count_relational]
      simp [hk, MatchSolver.makePropExpr, Expr.clone]
    · unfold MatchSolver.indexConjunct
      rw [kinds_count_relational]
      simp [hk, MatchSolver.makePropExpr, Expr.clone]

theorem pullAndsImpl_of_not_and (e : Expr) (h : e.kind ≠ Kind.kLogicalAnd) :
    ExpressionUtils.pullAndsImpl e = [e] := by
  cases e with
  | logical k ops => cases k <;> simp [Expr.kind, LogicalKind.toKind, ExpressionUtils.pullAndsImpl] at h ⊢
  | _ => simp [ExpressionUtils.pullAndsImpl]

theorem indexConjunct_of_count (label alias_ : String) (isEdgeProperties : Bool) (e : Expr)
    (h : (MatchSolver.kinds.count e.kind == 1) = false) :
    MatchSolver.indexConjunct label alias_ isEdgeProperties e = none := by
  unfold MatchSolver.indexConjunct
  have h' : (MatchSolver.kinds.count e.kind != 1) = true := by
    simpa [bne] using h
  simp [h']

theorem count_kind_eq_one_not_and (e : Expr)
    (h : (MatchSolver.kinds.count e.kind == 1) = true) : e.kind ≠ Kind.kLogicalAnd := by
  intro hk
  rw [hk] at h
  revert h
  decide

theorem makeIndexFilter_fst_eq (label alias_ : String) (filter : Expr)
    (isEdgeProperties : Bool) :
    (MatchSolver.makeIndexFilter label alias_ filter isEdgeProperties).1
      = andFold ((ExpressionUtils.pullAndsImpl filter).filterMap
          (MatchSolver.indexConjunct label alias_ isEdgeProperties)) := by
  unfold MatchSolver.makeIndexFilter
  cases hc : (MatchSolver.kinds.count filter.kind == 1) with
  | true =>
    simp only [if_true]
    rw [pullAndsImpl_of_not_and filter (count_kind_eq_one_not_and filter hc),
      indexFilterOfAnds_eq]
  | false =>
    simp only [Bool.false_eq_true, if_false]
    split
    · rename_i operands
      simp only [indexFilterOfAnds_eq, ExpressionUtils.pullAndsImpl]
    · rename_i hnot
      have hk : filter.kind ≠ Kind.kLogicalAnd := by
        intro hk
        cases filter with
        | logical k ops =>
          cases k with
          | And => exact hnot ops rfl
          | Or => simp [Expr.kind, LogicalKind.toKind] at hk
        | relational k l r => cases k <;> simp [Expr.kind, RelKind.toKind] at hk
        | _ => simp [Expr.kind] at hk
      rw [pullAndsImpl_of_not_and filter hk]
      simp [indexConjunct_of_count label alias_ isEdgeProperties filter hc, andFold]

theorem qualifies_iff_indexConjunct (label alias_ : String) (isEdgeProperties : Bool)
    (item : Expr) :
    qualifies alias_ item = true ↔
      (MatchSolver.indexConjunct label alias_ isEdgeProperties item).isSome = true := by
  rw [Option.isSome_iff_exists]
  constructor
  · intro h
    unfold qualifies at h
    split at h
    · rename_i k l f c
      simp only [Bool.and_eq_true, beq_iff_eq] at h
      refine ⟨_, (indexConjunct_eq_some_iff label alias_ isEdgeProperties _ _).2
        ⟨k, f, c, ?_, Or.inl ⟨by rw [h.2], rfl⟩⟩⟩
      rintro rfl
      simp at h
    · rename_i k c l f
      simp only [Bool.and_eq_true, beq_iff_eq] at h
      refine ⟨_, (indexConjunct_eq_some_iff label alias_ isEdgeProperties _ _).2
        ⟨k, f, c, ?_, Or.inr ⟨by rw [h.2], rfl⟩⟩⟩
      rintro rfl
      simp at h
    · simp at h
  · rintro ⟨rel, h⟩
    obtain ⟨k, f, c, hk, ⟨rfl, -⟩ | ⟨rfl, -⟩⟩ :=
      (indexConjunct_eq_some_iff label alias_ isEdgeProperties _ _).1 h
    · cases k <;> simp [qualifies] at hk ⊢
    · cases k <;> simp [qualifies] at hk ⊢

theorem andFold_eq_none_iff (rels : List Expr) : andFold rels = none ↔ rels = [] := by
  cases rels <;> simp [andFold]

theorem pullAndsOperands_append :
    ∀ (xs ys : List Expr),
      ExpressionUtils.pullAndsOperands (xs ++ ys)
        = ExpressionUtils.pullAndsOperands xs ++ ExpressionUtils.pullAndsOperands ys
  | [], ys => by simp [ExpressionUtils.pullAndsOperands]
  | x :: xs, ys => by
    simp [ExpressionUtils.pullAndsOperands, pullAndsOperands_append xs ys]

theorem pullAndsOperands_of_no_and :
    ∀ (cs : List Expr), (∀ c ∈ cs, c.kind ≠ Kind.kLogicalAnd) →
      ExpressionUtils.pullAndsOperands cs = cs
  | [], _ => by simp [ExpressionUtils.pullAndsOperands]
  | c :: cs, h => by
    have hc : c.kind ≠ Kind.kLogicalAnd := h c (List.mem_cons_self _ _)
    have hcs := pullAndsOperands_of_no_and cs (fun x hx => h x (List.mem_cons_of_mem _ hx))
    simp [ExpressionUtils.pullAndsOperands, pullAndsImpl_of_not_and c hc, hcs]

mutual
theorem pullAndsImpl_no_and :
    ∀ (e : Expr), ∀ c ∈ ExpressionUtils.pullAndsImpl e, c.kind ≠ Kind.kLogicalAnd
  | .logical .And ops => by
    simpa [ExpressionUtils.pullAndsImpl] using pullAndsOperands_no_and ops
  | .logical .Or ops => by simp [ExpressionUtils.pullAndsImpl, Expr.kind, LogicalKind.toKind]
  | .constant _ => by simp [ExpressionUtils.pullAndsImpl, Expr.kind]
  | .label _ => by simp [ExpressionUtils.pullAndsImpl, Expr.kind]
  | .labelAttribute _ _ => by simp [ExpressionUtils.pullAndsImpl, Expr.kind]
  | .relational k _ _ => by
    cases k <;> simp [ExpressionUtils.pullAndsImpl, Expr.kind, RelKind.toKind]
  | .unaryNot _ => by simp [ExpressionUtils.pullAndsImpl, Expr.kind]
  | .attribute _ _ => by simp [ExpressionUtils.pullAndsImpl, Expr.kind]
  | .vertex => by simp [ExpressionUtils.pullAndsImpl, Expr.kind]
  | .edge => by simp [ExpressionUtils.pullAndsImpl, Expr.kind]
  | .variableProperty _ _ => by simp [ExpressionUtils.pullAndsImpl, Expr.kind]
  | .tagProperty _ _ => by simp [ExpressionUtils.pullAndsImpl, Expr.kind]
  | .edgeProperty _ _ => by simp [ExpressionUtils.pullAndsImpl, Expr.kind]
  | .inputProperty _ => by simp [ExpressionUtils.pullAndsImpl, Expr.kind]
  | .functionCall _ _ => by simp [ExpressionUtils.pullAndsImpl, Expr.kind]
  | .pathBuild _ => by simp [ExpressionUtils.pullAndsImpl, Expr.kind]
theorem pullAndsOperands_no_and :
    ∀ (es : List Expr), ∀ c ∈ ExpressionUtils.pullAndsOperands es, c.kind ≠ Kind.kLogicalAnd
  | [] => by simp [ExpressionUtils.pullAndsOperands]
  | e :: es => by
    intro c hc
    simp only [ExpressionUtils.pullAndsOperands, List.mem_append] at hc
    cases hc with
    | inl h => exact pullAndsImpl_no_and e c h
    | inr h => exact pullAndsOperands_no_and es c h
end

theorem pullAndsOperands_idem (es : List Expr) :
    ExpressionUtils.pullAndsOperands (ExpressionUtils.pullAndsOperands es)
      = ExpressionUtils.pullAndsOperands es :=
  pullAndsOperands_of_no_and _ (pullAndsOperands_no_and es)

theorem pullAndsImpl_flat (e : Expr) :
    ExpressionUtils.pullAndsImpl (.logical .And (ExpressionUtils.pullAndsImpl e))
      = ExpressionUtils.pullAndsImpl e := by
  simp only [ExpressionUtils.pullAndsImpl]
  exact pullAndsOperands_of_no_and _ (pullAndsImpl_no_and e)

theorem pullAndsImpl_andFoldFrom :
    ∀ (cs : List Expr) (acc : Expr), (∀ c ∈ cs, c.kind ≠ Kind.kLogicalAnd) →
      ExpressionUtils.pullAndsImpl (andFoldFrom acc cs) = ExpressionUtils.pullAndsImpl acc ++ cs
  | [], acc, _ => by simp [andFoldFrom]
  | c :: cs, acc, h => by
    have hc : c.kind ≠ Kind.kLogicalAnd := h c (List.mem_cons_self _ _)
    rw [andFoldFrom, pullAndsImpl_andFoldFrom cs _ (fun x hx => h x (List.mem_cons_of_mem _ hx))]
    simp [ExpressionUtils.pullAndsImpl, ExpressionUtils.pullAndsOperands,
      pullAndsImpl_of_not_and c hc]

theorem pullAndsImpl_rightDeepAnd :
    ∀ (cs : List Expr) (c : Expr), (∀ x ∈ c :: cs, x.kind ≠ Kind.kLogicalAnd) →
      ExpressionUtils.pullAndsImpl (rightDeepAnd c cs) = c :: cs
  | [], c, h => by
    simp [rightDeepAnd, pullAndsImpl_of_not_and c (h c (List.mem_cons_self _ _))]
  | d :: ds, c, h => by
    have hc : c.kind ≠ Kind.kLogicalAnd := h c (List.mem_cons_self _ _)
    have ih := pullAndsImpl_rightDeepAnd ds d (fun x hx => h x (List.mem_cons_of_mem _ hx))
    simp [rightDeepAnd, ExpressionUtils.pullAndsImpl, ExpressionUtils.pullAndsOperands,
      pullAndsImpl_of_not_and c hc, ih]

theorem indexConjunct_kind (label alias_ : String) (isEdgeProperties : Bool)
    (item rel : Expr)
    (h : MatchSolver.indexConjunct label alias_ isEdgeProperties item = some rel) :
    rel.kind ≠ Kind.kLogicalAnd := by
  obtain ⟨k, f, c, -, ⟨-, rfl⟩ | ⟨-, rfl⟩⟩ :=
    (indexConjunct_eq_some_iff label alias_ isEdgeProperties item rel).1 h <;>
  cases k <;> simp [Expr.kind, RelKind.toKind]

theorem makeIndexFilter_snd_eq (label alias_ : String) (filter : Expr)
    (isEdgeProperties : Bool) :
    (MatchSolver.makeIndexFilter label alias_ filter isEdgeProperties).2
      = match filter with
        | .logical .And operands => .logical .And (ExpressionUtils.pullAndsOperands operands)
        | e => e := by
  unfold MatchSolver.makeIndexFilter
  cases hc : (MatchSolver.kinds.count filter.kind == 1) with
  | true =>
    have hk := count_kind_eq_one_not_and filter hc
    simp only [if_true]
    split
    · simp [Expr.kind, LogicalKind.toKind] at hk
    · rfl
  | false =>
    simp only [Bool.false_eq_true, if_false]
    split <;> rfl

theorem indexConjunct_eq_rewriteQualifying (label alias_ : String) (isEdgeProperties : Bool) :
    MatchSolver.indexConjunct label alias_ isEdgeProperties
      = rewriteQualifying label alias_ isEdgeProperties := by
  funext c
  cases h : MatchSolver.indexConjunct label alias_ isEdgeProperties c with
  | none =>
    have hq : qualifies alias_ c = false := by
      have := qualifies_iff_indexConjunct label alias_ isEdgeProperties c
      rw [h] at this
      cases hc : qualifies alias_ c with
      | false => rfl
      | true => exact absurd (this.1 hc) (by simp)
    simp [rewriteQualifying, hq]
  | some rel =>
    obtain ⟨k, f, v, hk, ⟨rfl, rfl⟩ | ⟨rfl, rfl⟩⟩ :=
      (indexConjunct_eq_some_iff label alias_ isEdgeProperties c rel).1 h
    · cases k <;> simp [rewriteQualifying, qualifies] at hk ⊢
    · cases k <;> simp [rewriteQualifying, qualifies] at hk ⊢

theorem makeIndexFilter_extracts (label alias_ : String) (isEdgeProperties : Bool)
    (filter c rel : Expr) (hc : c ∈ ExpressionUtils.pullAndsImpl filter)
    (hrel : MatchSolver.indexConjunct label alias_ isEdgeProperties c = some rel) :
    ∃ res, (MatchSolver.makeIndexFilter label alias_ filter isEdgeProperties).1 = some res ∧
      rel ∈ ExpressionUtils.pullAndsImpl res := by
  have hmem : rel ∈ (ExpressionUtils.pullAndsImpl filter).filterMap
      (MatchSolver.indexConjunct label alias_ isEdgeProperties) :=
    List.mem_filterMap.2 ⟨c, hc, hrel⟩
  have hall : ∀ x ∈ (ExpressionUtils.pullAndsImpl filter).filterMap
      (MatchSolver.indexConjunct label alias_ isEdgeProperties),
      x.kind ≠ Kind.kLogicalAnd := by
    intro x hx
    obtain ⟨y, -, hy⟩ := List.mem_filterMap.1 hx
    exact indexConjunct_kind label alias_ isEdgeProperties y x hy
  rw [makeIndexFilter_fst_eq]
  cases hl : (ExpressionUtils.pullAndsImpl filter).filterMap
      (MatchSolver.indexConjunct label alias_ isEdgeProperties) with
  | nil => rw [hl] at hmem; cases hmem
  | cons r0 rs =>
    rw [hl] at hmem hall
    refine ⟨andFoldFrom r0 rs, rfl, ?_⟩
    rw [pullAndsImpl_andFoldFrom rs r0 (fun x hx => hall x (List.mem_cons_of_mem _ hx)),
      pullAndsImpl_of_not_and r0 (hall r0 (List.mem_cons_self _ _))]
    exact hmem

/-! ## Lemmas on the vertex-fetch plan -/

theorem extractAndDedupVidColumn_eq (qctx : QueryContext) (initialExpr : Option Expr)
    (dep : Option PlanNode) (inputVar : String) (plan : SubPlan) (cols : List String)
    (back : String) (hv : qctx.getVar inputVar = some cols) (hb : cols.getLast? = some back) :
    MatchSolver.extractAndDedupVidColumn qctx initialExpr dep inputVar plan
      = some { plan with root := some (.dedup (some (.project dep (some inputVar)
          [YieldColumn.mk (MatchSolver.initialExprOrEdgeDstExpr initialExpr back)] [kVid]))
          [kVid]) } := by
  simp [MatchSolver.extractAndDedupVidColumn, hv, hb, Project.make, Dedup.make,
    PlanNode.setInputVar, PlanNode.setColNames]

theorem extractAndDedupVidColumn_defined (qctx : QueryContext) (initialExpr : Option Expr)
    (dep : Option PlanNode) (inputVar : String) (plan plan1 : SubPlan)
    (h : MatchSolver.extractAndDedupVidColumn qctx initialExpr dep inputVar plan = some plan1) :
    ∃ cols back, qctx.getVar inputVar = some cols ∧ cols.getLast? = some back := by
  unfold MatchSolver.extractAndDedupVidColumn at h
  split at h
  · cases h
  · rename_i cols hv
    split at h
    · cases h
    · rename_i back hb
      exact ⟨cols, back, hv, hb⟩

theorem appendFetchVertexPlan_defined (nodeFilter : Option Expr) (space : SpaceInfo)
    (qctx : QueryContext) (initialExpr : Option Expr) (inputVar : String)
    (plan : SubPlan) (res : Status × SubPlan)
    (h : MatchSolver.appendFetchVertexPlan nodeFilter space qctx initialExpr inputVar plan
      = some res) :
    ∃ cols back, qctx.getVar inputVar = some cols ∧ cols.getLast? = some back := by
  unfold MatchSolver.appendFetchVertexPlan at h
  split at h
  · cases h
  · rename_i plan1 h1
    exact extractAndDedupVidColumn_defined _ _ _ _ _ _ h1

theorem appendFetchVertexPlan_error (nodeFilter : Option Expr) (space : SpaceInfo)
    (qctx : QueryContext) (initialExpr : Option Expr) (inputVar : String) (plan : SubPlan)
    (cols : List String) (back msg : String)
    (hv : qctx.getVar inputVar = some cols) (hb : cols.getLast? = some back)
    (hp : qctx.getAllVertexProp space = .error msg) :
    MatchSolver.appendFetchVertexPlan nodeFilter space qctx initialExpr inputVar plan
      = some (Status.Error msg,
          { plan with root := some (.dedup (some (.project plan.root (some inputVar)
            [YieldColumn.mk (MatchSolver.initialExprOrEdgeDstExpr initialExpr back)] [kVid]))
            [kVid]) }) := by
  unfold MatchSolver.appendFetchVertexPlan
  rw [extractAndDedupVidColumn_eq qctx initialExpr plan.root inputVar plan cols back hv hb]
  simp [hp]

theorem appendFetchVertexPlan_ok (nodeFilter : Option Expr) (space : SpaceInfo)
    (qctx : QueryContext) (initialExpr : Option Expr) (inputVar : String) (plan : SubPlan)
    (cols : List String) (back : String) (props : List VertexProp)
    (hv : qctx.getVar inputVar = some cols) (hb : cols.getLast? = some back)
    (hp : qctx.getAllVertexProp space = .ok props) :
    MatchSolver.appendFetchVertexPlan nodeFilter space qctx initialExpr inputVar plan
      = some (Status.OK,
          { plan with root := some (.project
            (some
              (match nodeFilter with
               | none =>
                 .getVertices (some (.dedup (some (.project plan.root (some inputVar)
                   [YieldColumn.mk (MatchSolver.initialExprOrEdgeDstExpr initialExpr back)]
                   [kVid])) [kVid])) space.id (.inputProperty kVid) props [] []
               | some f =>
                 .filter (some (.getVertices (some (.dedup (some (.project plan.root
                   (some inputVar)
                   [YieldColumn.mk (MatchSolver.initialExprOrEdgeDstExpr initialExpr back)]
                   [kVid])) [kVid])) space.id (.inputProperty kVid) props [] []))
                   (f.substLabels (fun _ => .vertex)
                     (fun _ field => .attribute .vertex (.constant (.strV field)))) []))
            none [YieldColumn.mk (.pathBuild [.vertex])] [kPathStr]) }) := by
  unfold MatchSolver.appendFetchVertexPlan
  rw [extractAndDedupVidColumn_eq qctx initialExpr plan.root inputVar plan cols back hv hb]
  cases nodeFilter with
  | none =>
    simp [hp, GetVertices.make, Project.make, PlanNode.setColNames,
      ExpressionUtils.inputPropExpr]
  | some f =>
    simp [hp, GetVertices.make, Project.make, Filter.make, PlanNode.setColNames,
      ExpressionUtils.inputPropExpr, rewriteLabel2Vertex_eq]

/-! ## The claims -/

/-- C1: for every expression tree, each of the three label rewrites returns a
tree, and that tree contains no node of kind `Label` and none of kind
`LabelAttribute`. -/
theorem C1_rewrites_leave_no_label (e : Expr) :
    (∃ v, MatchSolver.rewriteLabel2Vertex e = some v ∧ v.hasLabel = false) ∧
    (∃ v, MatchSolver.rewriteLabel2Edge e = some v ∧ v.hasLabel = false) ∧
    (∃ v, MatchSolver.rewriteLabel2VarProp e = some v ∧ v.hasLabel = false) := by
  refine ⟨⟨_, rewriteLabel2Vertex_eq e, ?_⟩, ⟨_, rewriteLabel2Edge_eq e, ?_⟩,
    ⟨_, rewriteLabel2VarProp_eq e, ?_⟩⟩ <;>
  · apply substLabels_hasLabel <;> intros <;> simp [Expr.hasLabel]

/-- C2: `rewriteLabel2Vertex` turns a `Label` node into `Vertex` and a
`LabelAttribute(L, field)` node into `Attribute(Vertex, field)`, at the root and
at every position of a tree (the result is the tree with exactly these
replacements made); `rewriteLabel2Edge` does the same with `Edge`. -/
theorem C2_rewriteLabel2Vertex_Edge_rules (e : Expr) (L field : String) :
    MatchSolver.rewriteLabel2Vertex (.label L) = some .vertex ∧
    MatchSolver.rewriteLabel2Vertex (.labelAttribute L field)
      = some (.attribute .vertex (.constant (.strV field))) ∧
    MatchSolver.rewriteLabel2Vertex e
      = some (e.substLabels (fun _ => .vertex)
          (fun _ f => .attribute .vertex (.constant (.strV f)))) ∧
    MatchSolver.rewriteLabel2Edge (.label L) = some .edge ∧
    MatchSolver.rewriteLabel2Edge (.labelAttribute L field)
      = some (.attribute .edge (.constant (.strV field))) ∧
    MatchSolver.rewriteLabel2Edge e
      = some (e.substLabels (fun _ => .edge)
          (fun _ f => .attribute .edge (.constant (.strV f)))) :=
  ⟨rewriteLabel2Vertex_eq _, rewriteLabel2Vertex_eq _, rewriteLabel2Vertex_eq e,
    rewriteLabel2Edge_eq _, rewriteLabel2Edge_eq _, rewriteLabel2Edge_eq e⟩

/-- C3: `rewriteLabel2VarProp` turns a `Label(name)` node into
`VariableProperty("", name)` and a `LabelAttribute(L, field)` node into
`Attribute(VariableProperty("", L), Constant(field))`, at the root and at every
position of a tree. -/
theorem C3_rewriteLabel2VarProp_rules (e : Expr) (name L field : String) :
    MatchSolver.rewriteLabel2VarProp (.label name) = some (.variableProperty "" name) ∧
    MatchSolver.rewriteLabel2VarProp (.labelAttribute L field)
      = some (.attribute (.variableProperty "" L) (.constant (.strV field))) ∧
    MatchSolver.rewriteLabel2VarProp e
      = some (e.substLabels (fun n => .variableProperty "" n)
          (fun l f => .attribute (.variableProperty "" l) (.constant (.strV f)))) :=
  ⟨rewriteLabel2VarProp_eq _, rewriteLabel2VarProp_eq _, rewriteLabel2VarProp_eq e⟩

/-- C4: a tree without label nodes is returned unchanged by each of the three
rewrites; and for any tree, a node of the input that is not a label node is
found in each output at the same position, with the same kind (it is the
rewrite of that node). -/
theorem C4_rewrites_preserve_other_nodes (e : Expr) :
    (e.hasLabel = false →
      MatchSolver.rewriteLabel2Vertex e = some e ∧
      MatchSolver.rewriteLabel2Edge e = some e ∧
      MatchSolver.rewriteLabel2VarProp e = some e) ∧
    (∀ (p : List Nat) (s : Expr), e.nodeAt p = some s → MatchSolver.labelMatcher s = false →
      (∃ v s', MatchSolver.rewriteLabel2Vertex e = some v ∧ v.nodeAt p = some s' ∧
        s'.kind = s.kind ∧ MatchSolver.rewriteLabel2Vertex s = some s') ∧
      (∃ v s', MatchSolver.rewriteLabel2Edge e = some v ∧ v.nodeAt p = some s' ∧
        s'.kind = s.kind ∧ MatchSolver.rewriteLabel2Edge s = some s') ∧
      (∃ v s', MatchSolver.rewriteLabel2VarProp e = some v ∧ v.nodeAt p = some s' ∧
        s'.kind = s.kind ∧ MatchSolver.rewriteLabel2VarProp s = some s')) := by
  constructor
  · intro h
    rw [rewriteLabel2Vertex_eq, rewriteLabel2Edge_eq, rewriteLabel2VarProp_eq]
    simp [substLabels_of_no_label _ _ e h]
  · intro p s hp hs
    exact ⟨⟨_, _, rewriteLabel2Vertex_eq e, substLabels_nodeAt _ _ p e s hp,
        substLabels_kind _ _ s hs, rewriteLabel2Vertex_eq s⟩,
      ⟨_, _, rewriteLabel2Edge_eq e, substLabels_nodeAt _ _ p e s hp,
        substLabels_kind _ _ s hs, rewriteLabel2Edge_eq s⟩,
      ⟨_, _, rewriteLabel2VarProp_eq e, substLabels_nodeAt _ _ p e s hp,
        substLabels_kind _ _ s hs, rewriteLabel2VarProp_eq s⟩⟩

/-- Witness for C4: `v.age > 18` under a negation, at the root (no label
below `not (1 > 18)`) and at position `[0]` of `not (v.age > 18)`. -/
theorem C4_rewrites_preserve_other_nodes_witness :
    (MatchSolver.rewriteLabel2Vertex
        (.unaryNot (.relational .GT (.constant (.intV 1)) (.constant (.intV 18))))
        = some (.unaryNot (.relational .GT (.constant (.intV 1)) (.constant (.intV 18)))) ∧
      MatchSolver.rewriteLabel2Edge
        (.unaryNot (.relational .GT (.constant (.intV 1)) (.constant (.intV 18))))
        = some (.unaryNot (.relational .GT (.constant (.intV 1)) (.constant (.intV 18)))) ∧
      MatchSolver.rewriteLabel2VarProp
        (.unaryNot (.relational .GT (.constant (.intV 1)) (.constant (.intV 18))))
        = some (.unaryNot (.relational .GT (.constant (.intV 1)) (.constant (.intV 18))))) ∧
    ((∃ v s', MatchSolver.rewriteLabel2Vertex
          (.unaryNot (.relational .GT (.labelAttribute "v" "age") (.constant (.intV 18))))
          = some v ∧ v.nodeAt [0] = some s' ∧
        s'.kind = (Expr.relational .GT (.labelAttribute "v" "age") (.constant (.intV 18))).kind ∧
        MatchSolver.rewriteLabel2Vertex
          (.relational .GT (.labelAttribute "v" "age") (.constant (.intV 18))) = some s') ∧
      (∃ v s', MatchSolver.rewriteLabel2Edge
          (.unaryNot (.relational .GT (.labelAttribute "v" "age") (.constant (.intV 18))))
          = some v ∧ v.nodeAt [0] = some s' ∧
        s'.kind = (Expr.relational .GT (.labelAttribute "v" "age") (.constant (.intV 18))).kind ∧
        MatchSolver.rewriteLabel2Edge
          (.relational .GT (.labelAttribute "v" "age") (.constant (.intV 18))) = some s') ∧
      (∃ v s', MatchSolver.rewriteLabel2VarProp
          (.unaryNot (.relational .GT (.labelAttribute "v" "age") (.constant (.intV 18))))
          = some v ∧ v.nodeAt [0] = some s' ∧
        s'.kind = (Expr.relational .GT (.labelAttribute "v" "age") (.constant (.intV 18))).kind ∧
        MatchSolver.rewriteLabel2VarProp
          (.relational .GT (.labelAttribute "v" "age") (.constant (.intV 18))) = some s')) :=
  ⟨(C4_rewrites_preserve_other_nodes
      (.unaryNot (.relational .GT (.constant (.intV 1)) (.constant (.intV 18))))).1 rfl,
    (C4_rewrites_preserve_other_nodes
      (.unaryNot (.relational .GT (.labelAttribute "v" "age") (.constant (.intV 18))))).2
      [0] (.relational .GT (.labelAttribute "v" "age") (.constant (.intV 18))) rfl rfl⟩

/-- C5: the map overload returns one logical-AND root whose operands are, item
by item and in the order of the map, the relations
`EQ(accessor(label, field), valueExpr)`, with `EdgeProperty` as accessor when
the flag is set and `TagProperty` otherwise; the operand count is the size of
the map. The map `age: 10, name: "a"` with label `person` gives
`person.age == 10 AND person.name == "a"`. -/
theorem C5_makeIndexFilter_map (label : String) (m : List (String × Expr)) :
    MatchSolver.makeIndexFilterFromMap label m true
      = some (.logical .And
          (m.map fun item => .relational .EQ (.edgeProperty label item.1) item.2)) ∧
    MatchSolver.makeIndexFilterFromMap label m false
      = some (.logical .And
          (m.map fun item => .relational .EQ (.tagProperty label item.1) item.2)) ∧
    (∀ flag, ∃ operands,
      MatchSolver.makeIndexFilterFromMap label m flag = some (.logical .And operands) ∧
      operands.length = m.length) ∧
    MatchSolver.makeIndexFilterFromMap "person"
        [("age", .constant (.intV 10)), ("name", .constant (.strV "a"))] false
      = some (.logical .And
          [.relational .EQ (.tagProperty "person" "age") (.constant (.intV 10)),
           .relational .EQ (.tagProperty "person" "name") (.constant (.strV "a"))]) := by
  refine ⟨?_, ?_, ?_, rfl⟩
  · simp [MatchSolver.makeIndexFilterFromMap, foldl_append_singleton,
      MatchSolver.makePropExpr, Expr.clone]
  · simp [MatchSolver.makeIndexFilterFromMap, foldl_append_singleton,
      MatchSolver.makePropExpr, Expr.clone]
  · intro flag
    refine ⟨m.map fun item => .relational .EQ
      (MatchSolver.makePropExpr label flag item.1) item.2.clone, ?_, by simp⟩
    simp [MatchSolver.makeIndexFilterFromMap, foldl_append_singleton]

/-- C6: for every filter (in particular one whose top level is a relational or a
logical-AND) the filter overload returns the left-to-right AND-fold of the
rewritten qualifying conjuncts, in their order among the conjuncts of the
filter; a conjunct is rewritten exactly when it is `alias.f OP c` or
`c OP alias.f` with `OP` one of the five kinds, to the same `OP` over
`accessor(label, f)` and `c`, sides kept; every other conjunct is dropped.
`v.age > 18 AND v.age < 30 AND w.city == "x"` for alias `v` and label `person`
gives `person.age > 18 AND person.age < 30`. -/
theorem C6_makeIndexFilter_and_fold (label alias_ : String) (filter : Expr)
    (isEdgeProperties : Bool) :
    (MatchSolver.makeIndexFilter label alias_ filter isEdgeProperties).1
      = andFold ((ExpressionUtils.pullAndsImpl filter).filterMap
          (MatchSolver.indexConjunct label alias_ isEdgeProperties)) ∧
    (∀ item rel, MatchSolver.indexConjunct label alias_ isEdgeProperties item = some rel ↔
      ∃ (k : RelKind) (field : String) (c : Value), k ≠ RelKind.NE ∧
        ((item = .relational k (.labelAttribute alias_ field) (.constant c) ∧
            rel = .relational k
              (if isEdgeProperties then .edgeProperty label field else .tagProperty label field)
              (.constant c)) ∨
          (item = .relational k (.constant c) (.labelAttribute alias_ field) ∧
            rel = .relational k (.constant c)
              (if isEdgeProperties then .edgeProperty label field
                else .tagProperty label field)))) ∧
    (∀ item, qualifies alias_ item = true ↔
      (MatchSolver.indexConjunct label alias_ isEdgeProperties item).isSome = true) ∧
    (andFold [] = none ∧ (∀ rel, andFold [rel] = some rel) ∧
      ∀ rels rel acc, andFold rels = some acc →
        andFold (rels ++ [rel]) = some (.logical .And [acc, rel])) ∧
    (MatchSolver.makeIndexFilter "person" "v"
        (.logical .And
          [.logical .And
            [.relational .GT (.labelAttribute "v" "age") (.constant (.intV 18)),
             .relational .LT (.labelAttribute "v" "age") (.constant (.intV 30))],
           .relational .EQ (.labelAttribute "w" "city") (.constant (.strV "x"))])
        false).1
      = some (.logical .And
          [.relational .GT (.tagProperty "person" "age") (.constant (.intV 18)),
           .relational .LT (.tagProperty "person" "age") (.constant (.intV 30))]) := by
  refine ⟨makeIndexFilter_fst_eq _ _ _ _, indexConjunct_eq_some_iff _ _ _,
    qualifies_iff_indexConjunct _ _ _, ⟨rfl, fun _ => rfl, ?_⟩, rfl⟩
  intro rels rel acc h
  rw [andFold_append, h]

/-- C7: the filter overload returns null exactly when no conjunct of the filter
qualifies; so it returns null for a filter whose top-level kind is neither one
of the five relational kinds nor logical-AND, and for a single relational whose
sides are not a `LabelAttribute` of the alias against a `Constant`; and it
returns an expression whenever some conjunct qualifies. -/
theorem C7_makeIndexFilter_null_iff (label alias_ : String) (filter : Expr)
    (isEdgeProperties : Bool) :
    ((MatchSolver.makeIndexFilter label alias_ filter isEdgeProperties).1 = none ↔
      ∀ c ∈ ExpressionUtils.pullAndsImpl filter, qualifies alias_ c = false) ∧
    (filter.kind ∉ MatchSolver.kinds → filter.kind ≠ Kind.kLogicalAnd →
      (MatchSolver.makeIndexFilter label alias_ filter isEdgeProperties).1 = none) ∧
    (∀ k l r, filter = .relational k l r →
      (¬ ∃ field c, (l = .labelAttribute alias_ field ∧ r = .constant c) ∨
        (l = .constant c ∧ r = .labelAttribute alias_ field)) →
      (MatchSolver.makeIndexFilter label alias_ filter isEdgeProperties).1 = none) ∧
    ((∃ c ∈ ExpressionUtils.pullAndsImpl filter, qualifies alias_ c = true) →
      ((MatchSolver.makeIndexFilter label alias_ filter isEdgeProperties).1).isSome = true) := by
  have hq : ∀ c, qualifies alias_ c = false ↔
      MatchSolver.indexConjunct label alias_ isEdgeProperties c = none := by
    intro c
    have h := qualifies_iff_indexConjunct label alias_ isEdgeProperties c
    cases hc : MatchSolver.indexConjunct label alias_ isEdgeProperties c with
    | none => simp [hc] at h; simp [h]
    | some rel => simp [hc] at h; simp [h]
  have hiff : (MatchSolver.makeIndexFilter label alias_ filter isEdgeProperties).1 = none ↔
      ∀ c ∈ ExpressionUtils.pullAndsImpl filter, qualifies alias_ c = false := by
    rw [makeIndexFilter_fst_eq, andFold_eq_none_iff, List.filterMap_eq_nil_iff]
    exact forall₂_congr fun c _ => (hq c).symm
  refine ⟨hiff, ?_, ?_, ?_⟩
  · intro hk hand
    rw [hiff, pullAndsImpl_of_not_and filter hand]
    intro c hc
    rw [List.mem_singleton] at hc
    subst hc
    rw [hq]
    apply indexConjunct_of_count
    cases hcount : (MatchSolver.kinds.count c.kind == 1) with
    | false => rfl
    | true =>
      exfalso
      apply hk
      apply List.count_pos_iff.1
      have := beq_iff_eq.1 hcount
      omega
  · rintro k l r rfl hno
    rw [hiff, pullAndsImpl_of_not_and _ (by cases k <;> simp [Expr.kind, RelKind.toKind])]
    intro c hc
    rw [List.mem_singleton] at hc
    subst hc
    rw [hq]
    cases hc : MatchSolver.indexConjunct label alias_ isEdgeProperties (.relational k l r) with
    | none => rfl
    | some rel =>
      exfalso
      obtain ⟨k', f, c, -, ⟨h, -⟩ | ⟨h, -⟩⟩ :=
        (indexConjunct_eq_some_iff label alias_ isEdgeProperties _ _).1 hc
      · injection h with _ hl hr
        exact hno ⟨f, c, Or.inl ⟨hl, hr⟩⟩
      · injection h with _ hl hr
        exact hno ⟨f, c, Or.inr ⟨hl, hr⟩⟩
  · rintro ⟨c, hc, hqual⟩
    cases hres : (MatchSolver.makeIndexFilter label alias_ filter isEdgeProperties).1 with
    | some _ => rfl
    | none =>
      have := hiff.1 hres c hc
      rw [this] at hqual
      cases hqual

/-- Witness for C7: an OR at the top, `v.age > w.age` (other side not a
constant), and `v.age > 18` (one qualifying conjunct), alias `v`. -/
theorem C7_makeIndexFilter_null_iff_witness :
    (MatchSolver.makeIndexFilter "person" "v"
        (.logical .Or [.relational .GT (.labelAttribute "v" "age") (.constant (.intV 18))])
        false).1 = none ∧
    (MatchSolver.makeIndexFilter "person" "v"
        (.relational .GT (.labelAttribute "v" "age") (.labelAttribute "w" "age")) false).1
      = none ∧
    ((MatchSolver.makeIndexFilter "person" "v"
        (.relational .GT (.labelAttribute "v" "age") (.constant (.intV 18))) false).1).isSome
      = true :=
  ⟨(C7_makeIndexFilter_null_iff "person" "v"
      (.logical .Or [.relational .GT (.labelAttribute "v" "age") (.constant (.intV 18))])
      false).2.1 (by decide) (by decide),
    (C7_makeIndexFilter_null_iff "person" "v"
      (.relational .GT (.labelAttribute "v" "age") (.labelAttribute "w" "age")) false).2.2.1
      _ _ _ rfl (by simp),
    (C7_makeIndexFilter_null_iff "person" "v"
      (.relational .GT (.labelAttribute "v" "age") (.constant (.intV 18))) false).2.2.2
      ⟨_, List.mem_singleton.2 rfl, rfl⟩⟩

/-- C8: a qualifying conjunct keeps its relational kind and its sides:
`alias.f OP c` becomes `accessor(label, f) OP c` and `c OP alias.f` becomes
`c OP accessor(label, f)`, both as the whole filter and as one pass of the
conjunct loop. -/
theorem C8_makeIndexFilter_keeps_sides (label alias_ field : String) (c : Value)
    (k : RelKind) (isEdgeProperties : Bool) (hk : k.toKind ∈ MatchSolver.kinds) :
    (MatchSolver.makeIndexFilter label alias_
        (.relational k (.labelAttribute alias_ field) (.constant c)) isEdgeProperties).1
      = some (.relational k
          (if isEdgeProperties then .edgeProperty label field else .tagProperty label field)
          (.constant c)) ∧
    (MatchSolver.makeIndexFilter label alias_
        (.relational k (.constant c) (.labelAttribute alias_ field)) isEdgeProperties).1
      = some (.relational k (.constant c)
          (if isEdgeProperties then .edgeProperty label field
            else .tagProperty label field)) ∧
    MatchSolver.indexConjunct label alias_ isEdgeProperties
        (.relational k (.labelAttribute alias_ field) (.constant c))
      = some (.relational k
          (if isEdgeProperties then .edgeProperty label field else .tagProperty label field)
          (.constant c)) ∧
    MatchSolver.indexConjunct label alias_ isEdgeProperties
        (.relational k (.constant c) (.labelAttribute alias_ field))
      = some (.relational k (.constant c)
          (if isEdgeProperties then .edgeProperty label field
            else .tagProperty label field)) := by
  have hne : k ≠ RelKind.NE := by
    rintro rfl
    revert hk
    decide
  have h1 := (indexConjunct_eq_some_iff label alias_ isEdgeProperties
    (.relational k (.labelAttribute alias_ field) (.constant c)) _).2
    ⟨k, field, c, hne, Or.inl ⟨rfl, rfl⟩⟩
  have h2 := (indexConjunct_eq_some_iff label alias_ isEdgeProperties
    (.relational k (.constant c) (.labelAttribute alias_ field)) _).2
    ⟨k, field, c, hne, Or.inr ⟨rfl, rfl⟩⟩
  refine ⟨?_, ?_, h1, h2⟩
  · rw [makeIndexFilter_fst_eq,
      pullAndsImpl_of_not_and _ (by cases k <;> simp [Expr.kind, RelKind.toKind])]
    simp [h1, andFold, andFoldFrom]
  · rw [makeIndexFilter_fst_eq,
      pullAndsImpl_of_not_and _ (by cases k <;> simp [Expr.kind, RelKind.toKind])]
    simp [h2, andFold, andFoldFrom]

/-- Witness for C8: `v.age >= 18` and `18 >= v.age`, alias `v`, label `person`. -/
theorem C8_makeIndexFilter_keeps_sides_witness :
    (MatchSolver.makeIndexFilter "person" "v"
        (.relational .GE (.labelAttribute "v" "age") (.constant (.intV 18))) false).1
      = some (.relational .GE (.tagProperty "person" "age") (.constant (.intV 18))) ∧
    (MatchSolver.makeIndexFilter "person" "v"
        (.relational .GE (.constant (.intV 18)) (.labelAttribute "v" "age")) false).1
      = some (.relational .GE (.constant (.intV 18)) (.tagProperty "person" "age")) :=
  ⟨(C8_makeIndexFilter_keeps_sides "person" "v" "age" (.intV 18) .GE false (by decide)).1,
    (C8_makeIndexFilter_keeps_sides "person" "v" "age" (.intV 18) .GE false (by decide)).2.1⟩

/-- C9, as the claim states it, fails: the map overload returns a root, not
null, for the empty property map. -/
theorem C9_empty_map_not_null :
    MatchSolver.makeIndexFilterFromMap "person" [] false ≠ none := by
  simp [MatchSolver.makeIndexFilterFromMap]

/-- C9, amended: the map overload never returns null: for every property map it
returns a logical-AND root, with one operand per item of the map; for the empty
property map that root has no operands. -/
theorem C9_makeIndexFilter_map_never_null (label : String) (m : List (String × Expr))
    (isEdgeProperties : Bool) :
    MatchSolver.makeIndexFilterFromMap label m isEdgeProperties ≠ none ∧
    MatchSolver.makeIndexFilterFromMap label [] isEdgeProperties
      = some (.logical .And []) ∧
    (∃ operands,
      MatchSolver.makeIndexFilterFromMap label m isEdgeProperties
        = some (.logical .And operands) ∧
      operands.length = m.length) := by
  refine ⟨by simp [MatchSolver.makeIndexFilterFromMap],
    by simp [MatchSolver.makeIndexFilterFromMap], ?_⟩
  refine ⟨m.map fun item => .relational .EQ
    (MatchSolver.makePropExpr label isEdgeProperties item.1) item.2.clone, ?_, by simp⟩
  simp [MatchSolver.makeIndexFilterFromMap, foldl_append_singleton]

/-- C10: whenever `appendFetchVertexPlan` returns OK, whatever the node filter
(present or absent), the id expression and the input plan, the root of the plan
is a `Project` with the single column name `kPathStr` and the single yield
column `PathBuild[Vertex]`. -/
theorem C10_appendFetchVertexPlan_root (nodeFilter : Option Expr) (space : SpaceInfo)
    (qctx : QueryContext) (initialExpr : Option Expr) (inputVar : String)
    (plan plan' : SubPlan)
    (h : MatchSolver.appendFetchVertexPlan nodeFilter space qctx initialExpr inputVar plan
      = some (Status.OK, plan')) :
    ∃ dep inputVar', plan'.root
      = some (.project dep inputVar' [YieldColumn.mk (.pathBuild [.vertex])] [kPathStr]) := by
  unfold MatchSolver.appendFetchVertexPlan at h
  split at h
  · cases h
  · rename_i plan1 _
    split at h
    · simp at h
    · rename_i props _
      simp only at h
      split at h
      · cases h
      · rename_i root _
        simp only [Option.some.injEq, Prod.mk.injEq, true_and] at h
        subst h
        exact ⟨some root, none, rfl⟩

/-- Witness for C10: the filter `v.age > 18` on a plan whose variable `v` has
the one column `p`, in a space with one tag; the call returns OK. -/
theorem C10_appendFetchVertexPlan_root_witness :
    ∃ plan', MatchSolver.appendFetchVertexPlan
        (some (.relational .GT (.labelAttribute "v" "age") (.constant (.intV 18))))
        ⟨1, "space"⟩
        ⟨fun var => if var = "v" then some ["p"] else none, fun _ => .ok [⟨2, ["age"]⟩]⟩
        none "v" ⟨some (.upstream "Start" ["p"]), none⟩ = some (Status.OK, plan') ∧
      ∃ dep inputVar', plan'.root
        = some (.project dep inputVar' [YieldColumn.mk (.pathBuild [.vertex])] [kPathStr]) :=
  ⟨_, rfl, C10_appendFetchVertexPlan_root
    (some (.relational .GT (.labelAttribute "v" "age") (.constant (.intV 18))))
    ⟨1, "space"⟩
    ⟨fun var => if var = "v" then some ["p"] else none, fun _ => .ok [⟨2, ["age"]⟩]⟩
    none "v" ⟨some (.upstream "Start" ["p"]), none⟩ _ rfl⟩

/-- C11: in a plan that `appendFetchVertexPlan` built (it returned OK), the
`GetVertices` node, which the final `Project` reads directly or through the
`Filter`, has as its dependency a `Dedup` whose dependency is the `Project` of
the id expression alone over the input plan; `Project` and `Dedup` both have the
one column name `kVid`, and the source of `GetVertices` is the input property
`kVid`. -/
theorem C11_getVertices_reads_dedup_of_vid (nodeFilter : Option Expr) (space : SpaceInfo)
    (qctx : QueryContext) (initialExpr : Option Expr) (inputVar : String)
    (plan plan' : SubPlan)
    (h : MatchSolver.appendFetchVertexPlan nodeFilter space qctx initialExpr inputVar plan
      = some (Status.OK, plan')) :
    ∃ (final root gv dedup proj : PlanNode) (props : List VertexProp) (cols : List String)
        (back : String),
      plan'.root = some final ∧ final.dep = some root ∧
      ((nodeFilter = none ∧ root = gv) ∨ (∃ cond, root = .filter (some gv) cond [])) ∧
      gv = .getVertices (some dedup) space.id (.inputProperty kVid) props [] [] ∧
      gv.dep = some dedup ∧
      dedup = .dedup (some proj) [kVid] ∧
      proj = .project plan.root (some inputVar)
        [YieldColumn.mk (MatchSolver.initialExprOrEdgeDstExpr initialExpr back)] [kVid] ∧
      dedup.colNames = [kVid] ∧ proj.colNames = [kVid] ∧
      qctx.getVar inputVar = some cols ∧ cols.getLast? = some back ∧
      qctx.getAllVertexProp space = .ok props := by
  obtain ⟨cols, back, hv, hb⟩ := appendFetchVertexPlan_defined _ _ _ _ _ _ _ h
  cases hp : qctx.getAllVertexProp space with
  | error msg =>
    rw [appendFetchVertexPlan_error nodeFilter space qctx initialExpr inputVar plan cols back
      msg hv hb hp] at h
    simp at h
  | ok props =>
    rw [appendFetchVertexPlan_ok nodeFilter space qctx initialExpr inputVar plan cols back
      props hv hb hp] at h
    simp only [Option.some.injEq, Prod.mk.injEq, true_and] at h
    subst h
    cases nodeFilter with
    | none =>
      exact ⟨_, _, _, _, _, props, cols, back, rfl, rfl, Or.inl ⟨rfl, rfl⟩, rfl, rfl, rfl, rfl,
        rfl, rfl, hv, hb, rfl⟩
    | some f =>
      exact ⟨_, _, _, _, _, props, cols, back, rfl, rfl, Or.inr ⟨_, rfl⟩, rfl, rfl, rfl, rfl,
        rfl, rfl, hv, hb, rfl⟩

/-- Witness for C11: the filter `v.age > 18` on a plan whose variable `v` has
the one column `p`, in a space with one tag; the call returns OK. -/
theorem C11_getVertices_reads_dedup_of_vid_witness :
    ∃ (final root gv dedup proj : PlanNode) (props : List VertexProp) (cols : List String)
        (back : String),
      (SubPlan.mk (some (.project (some (.filter (some (.getVertices (some (.dedup (some
          (.project (some (.upstream "Start" ["p"])) (some "v")
            [YieldColumn.mk (.attribute (.functionCall "endNode" [.inputProperty "p"])
              (.constant (.strV kVid)))] [kVid])) [kVid])) 1 (.inputProperty kVid)
          [⟨2, ["age"]⟩] [] []))
          (.relational .GT (.attribute .vertex (.constant (.strV "age")))
            (.constant (.intV 18))) []))
          none [YieldColumn.mk (.pathBuild [.vertex])] [kPathStr])) none).root = some final ∧
      final.dep = some root ∧
      (((some (Expr.relational .GT (.labelAttribute "v" "age") (.constant (.intV 18)))) = none ∧
          root = gv) ∨ (∃ cond, root = .filter (some gv) cond [])) ∧
      gv = .getVertices (some dedup) (SpaceInfo.mk 1 "space").id (.inputProperty kVid)
        props [] [] ∧
      gv.dep = some dedup ∧
      dedup = .dedup (some proj) [kVid] ∧
      proj = .project (SubPlan.mk (some (.upstream "Start" ["p"])) none).root (some "v")
        [YieldColumn.mk (MatchSolver.initialExprOrEdgeDstExpr none back)] [kVid] ∧
      dedup.colNames = [kVid] ∧ proj.colNames = [kVid] ∧
      (QueryContext.mk (fun var => if var = "v" then some ["p"] else none)
        (fun _ => .ok [⟨2, ["age"]⟩])).getVar "v" = some cols ∧
      cols.getLast? = some back ∧
      (QueryContext.mk (fun var => if var = "v" then some ["p"] else none)
        (fun _ => .ok [⟨2, ["age"]⟩])).getAllVertexProp ⟨1, "space"⟩ = .ok props :=
  C11_getVertices_reads_dedup_of_vid
    (some (.relational .GT (.labelAttribute "v" "age") (.constant (.intV 18))))
    ⟨1, "space"⟩
    ⟨fun var => if var = "v" then some ["p"] else none, fun _ => .ok [⟨2, ["age"]⟩]⟩
    none "v" ⟨some (.upstream "Start" ["p"]), none⟩ _ rfl

/-- C12: when the input variable is known and has a column (so that the call is
defined), `appendFetchVertexPlan` returns, and it returns an error exactly when
listing the vertex properties of the space fails; the status is then the error
of the listing and the plan holds only the id `Project` and its `Dedup` over
the input plan (no `GetVertices`, `Filter` or final `Project`); when the listing
succeeds the status is OK. -/
theorem C12_appendFetchVertexPlan_error_iff (nodeFilter : Option Expr) (space : SpaceInfo)
    (qctx : QueryContext) (initialExpr : Option Expr) (inputVar : String) (plan : SubPlan)
    (cols : List String) (hv : qctx.getVar inputVar = some cols) (hne : cols ≠ []) :
    ∃ st plan',
      MatchSolver.appendFetchVertexPlan nodeFilter space qctx initialExpr inputVar plan
        = some (st, plan') ∧
      (st ≠ Status.OK ↔ ∃ msg, qctx.getAllVertexProp space = .error msg) ∧
      (∀ msg, qctx.getAllVertexProp space = .error msg →
        st = Status.Error msg ∧
        ∃ back, cols.getLast? = some back ∧
          plan'.root = some (.dedup (some (.project plan.root (some inputVar)
            [YieldColumn.mk (MatchSolver.initialExprOrEdgeDstExpr initialExpr back)] [kVid]))
            [kVid])) ∧
      ((∃ props, qctx.getAllVertexProp space = .ok props) → st = Status.OK) := by
  obtain ⟨back, hb⟩ : ∃ back, cols.getLast? = some back := by
    cases hl : cols.getLast? with
    | none => exact absurd (List.getLast?_eq_none_iff.1 hl) hne
    | some back => exact ⟨back, rfl⟩
  cases hp : qctx.getAllVertexProp space with
  | error msg =>
    refine ⟨_, _, appendFetchVertexPlan_error nodeFilter space qctx initialExpr inputVar plan
      cols back msg hv hb hp, ?_, ?_, ?_⟩
    · simp
    · intro msg' hmsg
      injection hmsg with hmsg
      subst hmsg
      exact ⟨rfl, back, hb, rfl⟩
    · rintro ⟨props, hprops⟩
      cases hprops
  | ok props =>
    refine ⟨_, _, appendFetchVertexPlan_ok nodeFilter space qctx initialExpr inputVar plan
      cols back props hv hb hp, ?_, ?_, ?_⟩
    · simp
    · intro msg hmsg
      cases hmsg
    · intro _
      rfl

/-- Witness for C12: the variable `v` with the one column `p`, in a space whose
property listing fails with `SpaceNotFound`. -/
theorem C12_appendFetchVertexPlan_error_iff_witness :
    ∃ st plan',
      MatchSolver.appendFetchVertexPlan none ⟨1, "space"⟩
          ⟨fun var => if var = "v" then some ["p"] else none, fun _ => .error "SpaceNotFound"⟩
          none "v" ⟨some (.upstream "Start" ["p"]), none⟩
        = some (st, plan') ∧
      (st ≠ Status.OK ↔ ∃ msg,
        (QueryContext.mk (fun var => if var = "v" then some ["p"] else none)
          (fun _ => .error "SpaceNotFound")).getAllVertexProp ⟨1, "space"⟩ = .error msg) ∧
      (∀ msg,
        (QueryContext.mk (fun var => if var = "v" then some ["p"] else none)
          (fun _ => .error "SpaceNotFound")).getAllVertexProp ⟨1, "space"⟩ = .error msg →
        st = Status.Error msg ∧
        ∃ back, ["p"].getLast? = some back ∧
          plan'.root = some (.dedup (some (.project
            (SubPlan.mk (some (.upstream "Start" ["p"])) none).root (some "v")
            [YieldColumn.mk (MatchSolver.initialExprOrEdgeDstExpr none back)] [kVid]))
            [kVid])) ∧
      ((∃ props,
        (QueryContext.mk (fun var => if var = "v" then some ["p"] else none)
          (fun _ => .error "SpaceNotFound")).getAllVertexProp ⟨1, "space"⟩ = .ok props) →
        st = Status.OK) :=
  C12_appendFetchVertexPlan_error_iff none ⟨1, "space"⟩
    ⟨fun var => if var = "v" then some ["p"] else none, fun _ => .error "SpaceNotFound"⟩
    none "v" ⟨some (.upstream "Start" ["p"]), none⟩ ["p"] rfl (by simp)

/-- C13: `initialExprOrEdgeDstExpr` returns the explicit id expression when one
is supplied, whatever the column name, and
`Attribute(FunctionCall("endNode", [inputProp(col)]), Constant(kVid))` when none
is; `extractAndDedupVidColumn` calls it with the last column of the input
variable and projects exactly the expression it returns. -/
theorem C13_initialExprOrEdgeDstExpr (e : Expr) (col : String) :
    MatchSolver.initialExprOrEdgeDstExpr (some e) col = e ∧
    MatchSolver.initialExprOrEdgeDstExpr none col
      = .attribute (.functionCall "endNode" [.inputProperty col]) (.constant (.strV kVid)) ∧
    (∀ (qctx : QueryContext) (initialExpr : Option Expr) (dep : Option PlanNode)
        (inputVar : String) (plan : SubPlan) (cols : List String),
      qctx.getVar inputVar = some cols → cols.getLast? = some col →
      MatchSolver.extractAndDedupVidColumn qctx initialExpr dep inputVar plan
        = some { plan with root := some (.dedup (some (.project dep (some inputVar)
            [YieldColumn.mk (MatchSolver.initialExprOrEdgeDstExpr initialExpr col)] [kVid]))
            [kVid]) }) :=
  ⟨rfl, rfl, fun qctx initialExpr dep inputVar plan cols hv hb =>
    extractAndDedupVidColumn_eq qctx initialExpr dep inputVar plan cols col hv hb⟩

/-- Witness for C13: no explicit id expression, the variable `v` with the
columns `a`, `p`: the projected expression is `endNode($-.p)._vid`. -/
theorem C13_initialExprOrEdgeDstExpr_witness :
    MatchSolver.extractAndDedupVidColumn
        ⟨fun var => if var = "v" then some ["a", "p"] else none, fun _ => .ok []⟩
        none (some (.upstream "Start" ["a", "p"])) "v" ⟨some (.upstream "Start" ["a", "p"]), none⟩
      = some { (SubPlan.mk (some (.upstream "Start" ["a", "p"])) none) with
          root := some (.dedup (some (.project (some (.upstream "Start" ["a", "p"])) (some "v")
            [YieldColumn.mk (MatchSolver.initialExprOrEdgeDstExpr none "p")] [kVid]))
            [kVid]) } :=
  (C13_initialExprOrEdgeDstExpr .vertex "p").2.2
    ⟨fun var => if var = "v" then some ["a", "p"] else none, fun _ => .ok []⟩
    none (some (.upstream "Start" ["a", "p"])) "v" ⟨some (.upstream "Start" ["a", "p"]), none⟩
    ["a", "p"] rfl rfl

/-- C14: in a plan that `appendFetchVertexPlan` built (it returned OK), the
final `Project` depends on a `Filter` over `GetVertices` exactly when a node
filter was supplied, the condition of that `Filter` being
`rewriteLabel2Vertex(nodeFilter)`; without a node filter the final `Project`
depends on `GetVertices` itself. -/
theorem C14_filter_iff_nodeFilter (nodeFilter : Option Expr) (space : SpaceInfo)
    (qctx : QueryContext) (initialExpr : Option Expr) (inputVar : String)
    (plan plan' : SubPlan)
    (h : MatchSolver.appendFetchVertexPlan nodeFilter space qctx initialExpr inputVar plan
      = some (Status.OK, plan')) :
    ∃ (final : PlanNode) (gvDep : Option PlanNode) (props : List VertexProp),
      plan'.root = some final ∧
      (∀ f, nodeFilter = some f →
        ∃ cond, MatchSolver.rewriteLabel2Vertex f = some cond ∧
          final.dep = some (.filter
            (some (.getVertices gvDep space.id (.inputProperty kVid) props [] [])) cond [])) ∧
      (nodeFilter = none →
        final.dep = some (.getVertices gvDep space.id (.inputProperty kVid) props [] [])) ∧
      ((∃ d cond names, final.dep = some (.filter d cond names)) ↔ nodeFilter.isSome = true) := by
  obtain ⟨cols, back, hv, hb⟩ := appendFetchVertexPlan_defined _ _ _ _ _ _ _ h
  cases hp : qctx.getAllVertexProp space with
  | error msg =>
    rw [appendFetchVertexPlan_error nodeFilter space qctx initialExpr inputVar plan cols back
      msg hv hb hp] at h
    simp at h
  | ok props =>
    rw [appendFetchVertexPlan_ok nodeFilter space qctx initialExpr inputVar plan cols back
      props hv hb hp] at h
    simp only [Option.some.injEq, Prod.mk.injEq, true_and] at h
    subst h
    cases nodeFilter with
    | none =>
      refine ⟨_, _, props, rfl, ?_, fun _ => rfl, ?_⟩
      · intro f hf
        cases hf
      · simp [PlanNode.dep]
    | some f =>
      refine ⟨_, some (.dedup (some (.project plan.root (some inputVar)
        [YieldColumn.mk (MatchSolver.initialExprOrEdgeDstExpr initialExpr back)] [kVid]))
        [kVid]), props, rfl, ?_, ?_, ?_⟩
      · intro f' hf
        injection hf with hf
        subst hf
        exact ⟨_, rewriteLabel2Vertex_eq f, rfl⟩
      · intro hf
        cases hf
      · simp [PlanNode.dep]

/-- Witness for C14: the filter `v.age > 18` on a plan whose variable `v` has
the one column `p`, in a space with one tag; the call returns OK. -/
theorem C14_filter_iff_nodeFilter_witness :
    ∃ plan', MatchSolver.appendFetchVertexPlan
        (some (.relational .GT (.labelAttribute "v" "age") (.constant (.intV 18))))
        ⟨1, "space"⟩
        ⟨fun var => if var = "v" then some ["p"] else none, fun _ => .ok [⟨2, ["age"]⟩]⟩
        none "v" ⟨some (.upstream "Start" ["p"]), none⟩ = some (Status.OK, plan') ∧
      ∃ (final : PlanNode) (gvDep : Option PlanNode) (props : List VertexProp),
        plan'.root = some final ∧
        (∀ f, some (Expr.relational .GT (.labelAttribute "v" "age") (.constant (.intV 18)))
            = some f →
          ∃ cond, MatchSolver.rewriteLabel2Vertex f = some cond ∧
            final.dep = some (.filter
              (some (.getVertices gvDep (SpaceInfo.mk 1 "space").id (.inputProperty kVid)
                props [] [])) cond [])) ∧
        (some (Expr.relational .GT (.labelAttribute "v" "age") (.constant (.intV 18))) = none →
          final.dep = some (.getVertices gvDep (SpaceInfo.mk 1 "space").id
            (.inputProperty kVid) props [] [])) ∧
        ((∃ d cond names, final.dep = some (.filter d cond names)) ↔
          (some (Expr.relational .GT (.labelAttribute "v" "age")
            (.constant (.intV 18)))).isSome = true) :=
  ⟨_, rfl, C14_filter_iff_nodeFilter
    (some (.relational .GT (.labelAttribute "v" "age") (.constant (.intV 18))))
    ⟨1, "space"⟩
    ⟨fun var => if var = "v" then some ["p"] else none, fun _ => .ok [⟨2, ["age"]⟩]⟩
    none "v" ⟨some (.upstream "Start" ["p"]), none⟩ _ rfl⟩

/-- C15: `filtPathHasSameEdge` returns a `Filter` over the input node whose
condition is `Not(FunctionCall("hasSameEdgeInPath", [inputProp(column)]))` and
whose column names are those of the input node. -/
theorem C15_filtPathHasSameEdge (input : PlanNode) (column : String) :
    MatchSolver.filtPathHasSameEdge input column
      = .filter (some input)
          (.unaryNot (.functionCall "hasSameEdgeInPath" [.inputProperty column]))
          input.colNames ∧
    (MatchSolver.filtPathHasSameEdge input column).dep = some input ∧
    (MatchSolver.filtPathHasSameEdge input column).colNames = input.colNames :=
  ⟨rfl, rfl, rfl⟩

/-- C16, as the claim states it, fails: `not x` contains the `Label` node `x`,
the alias table is empty, and `doRewrite` returns the rewritten tree instead of
failing. -/
theorem C16_nested_label_not_checked :
    (Expr.unaryNot (.label "x")).hasLabel = true ∧
    List.lookup "x" ([] : List (String × AliasType)) = none ∧
    MatchSolver.doRewrite [] (.unaryNot (.label "x"))
      = some (.unaryNot (.variableProperty "" "x")) :=
  ⟨rfl, rfl, rfl⟩

/-- C16, amended: `doRewrite` fails exactly when the expression itself is a
`Label` node whose name is absent from the alias table; in every other case it
returns exactly `rewriteLabel2VarProp(expr)`. -/
theorem C16_doRewrite_checks_root_label (aliases : List (String × AliasType)) (expr : Expr) :
    (MatchSolver.doRewrite aliases expr = none ↔
      ∃ name, expr = .label name ∧ aliases.lookup name = none) ∧
    ((¬ ∃ name, expr = .label name ∧ aliases.lookup name = none) →
      MatchSolver.doRewrite aliases expr = MatchSolver.rewriteLabel2VarProp expr) := by
  have hsome : MatchSolver.rewriteLabel2VarProp expr ≠ none := by
    rw [rewriteLabel2VarProp_eq]
    simp
  cases expr with
  | label name =>
    cases hl : aliases.lookup name with
    | none =>
      have hd : MatchSolver.doRewrite aliases (.label name) = none := by
        simp [MatchSolver.doRewrite, Expr.kind, hl]
      exact ⟨⟨fun _ => ⟨name, rfl, hl⟩, fun _ => hd⟩, fun hno => absurd ⟨name, rfl, hl⟩ hno⟩
    | some t =>
      have hd : MatchSolver.doRewrite aliases (.label name)
          = MatchSolver.rewriteLabel2VarProp (.label name) := by
        simp [MatchSolver.doRewrite, Expr.kind, hl]
      refine ⟨⟨fun h => absurd (hd ▸ h) hsome, ?_⟩, fun _ => hd⟩
      rintro ⟨name', hname, hl'⟩
      injection hname with hname
      subst hname
      rw [hl] at hl'
      cases hl'
  | relational k l r =>
    have hd : MatchSolver.doRewrite aliases (.relational k l r)
        = MatchSolver.rewriteLabel2VarProp (.relational k l r) := by
      cases k <;> simp [MatchSolver.doRewrite, Expr.kind, RelKind.toKind]
    exact ⟨⟨fun h => absurd (hd ▸ h) hsome, fun ⟨_, hname, _⟩ => by cases hname⟩, fun _ => hd⟩
  | logical k ops =>
    have hd : MatchSolver.doRewrite aliases (.logical k ops)
        = MatchSolver.rewriteLabel2VarProp (.logical k ops) := by
      cases k <;> simp [MatchSolver.doRewrite, Expr.kind, LogicalKind.toKind]
    exact ⟨⟨fun h => absurd (hd ▸ h) hsome, fun ⟨_, hname, _⟩ => by cases hname⟩, fun _ => hd⟩
  | _ =>
    refine ⟨⟨fun h => absurd ?_ hsome, fun ⟨_, hname, _⟩ => by cases hname⟩, fun _ => ?_⟩ <;>
      simp_all [MatchSolver.doRewrite, Expr.kind]

/-- Witness for C16: `not x` with an empty alias table is not a `Label` node
itself, so `doRewrite` returns what `rewriteLabel2VarProp` returns. -/
theorem C16_doRewrite_checks_root_label_witness :
    MatchSolver.doRewrite [] (.unaryNot (.label "x"))
      = MatchSolver.rewriteLabel2VarProp (.unaryNot (.label "x")) :=
  (C16_doRewrite_checks_root_label [] (.unaryNot (.label "x"))).2
    (fun ⟨_, hname, _⟩ => by cases hname)

/-- C17: the filter overload sees only the non-AND leaf conjuncts of a filter,
in left-to-right order: its result is the result for the flat logical-AND of
them, namely the left-to-right AND-fold of the rewritten qualifying ones; two
filters with the same leaf conjuncts give the same result, so the left-deep,
the right-deep and the n-ary nesting of a list of non-AND conjuncts give one and
the same result; and a qualifying relational, at whatever AND depth it stands,
is extracted: `alias.f OP c` puts `accessor(label, f) OP c` among the conjuncts
of the result, `c OP alias.f` puts `c OP accessor(label, f)` there. The
conjuncts `v.age > 18`, `v.age < 30`, `w.city == "x"` give
`person.age > 18 AND person.age < 30` in each nesting. -/
theorem C17_makeIndexFilter_flattens (label alias_ : String) (isEdgeProperties : Bool)
    (filter : Expr) :
    (MatchSolver.makeIndexFilter label alias_ filter isEdgeProperties).1
      = (MatchSolver.makeIndexFilter label alias_
          (.logical .And (ExpressionUtils.pullAndsImpl filter)) isEdgeProperties).1 ∧
    (MatchSolver.makeIndexFilter label alias_ filter isEdgeProperties).1
      = andFold ((ExpressionUtils.pullAndsImpl filter).filterMap
          (rewriteQualifying label alias_ isEdgeProperties)) ∧
    (∀ g, ExpressionUtils.pullAndsImpl g = ExpressionUtils.pullAndsImpl filter →
      (MatchSolver.makeIndexFilter label alias_ g isEdgeProperties).1
        = (MatchSolver.makeIndexFilter label alias_ filter isEdgeProperties).1) ∧
    (∀ c cs, (∀ x ∈ c :: cs, x.kind ≠ Kind.kLogicalAnd) →
      (MatchSolver.makeIndexFilter label alias_ (andFoldFrom c cs) isEdgeProperties).1
        = andFold ((c :: cs).filterMap (rewriteQualifying label alias_ isEdgeProperties)) ∧
      (MatchSolver.makeIndexFilter label alias_ (rightDeepAnd c cs) isEdgeProperties).1
        = andFold ((c :: cs).filterMap (rewriteQualifying label alias_ isEdgeProperties)) ∧
      (MatchSolver.makeIndexFilter label alias_ (.logical .And (c :: cs)) isEdgeProperties).1
        = andFold ((c :: cs).filterMap (rewriteQualifying label alias_ isEdgeProperties))) ∧
    (∀ c ∈ ExpressionUtils.pullAndsImpl filter, qualifies alias_ c = true →
      ∃ res rel,
        (MatchSolver.makeIndexFilter label alias_ filter isEdgeProperties).1 = some res ∧
        rewriteQualifying label alias_ isEdgeProperties c = some rel ∧
        rel ∈ ExpressionUtils.pullAndsImpl res) ∧
    (∀ (k : RelKind) (field : String) (v : Value), k.toKind ∈ MatchSolver.kinds →
      (Expr.relational k (.labelAttribute alias_ field) (.constant v)
          ∈ ExpressionUtils.pullAndsImpl filter →
        ∃ res,
          (MatchSolver.makeIndexFilter label alias_ filter isEdgeProperties).1 = some res ∧
          Expr.relational k
              (if isEdgeProperties then .edgeProperty label field
                else .tagProperty label field)
              (.constant v) ∈ ExpressionUtils.pullAndsImpl res) ∧
      (Expr.relational k (.constant v) (.labelAttribute alias_ field)
          ∈ ExpressionUtils.pullAndsImpl filter →
        ∃ res,
          (MatchSolver.makeIndexFilter label alias_ filter isEdgeProperties).1 = some res ∧
          Expr.relational k (.constant v)
              (if isEdgeProperties then .edgeProperty label field
                else .tagProperty label field)
            ∈ ExpressionUtils.pullAndsImpl res)) ∧
    ((MatchSolver.makeIndexFilter "person" "v"
        (.logical .And
          [.logical .And
            [.relational .GT (.labelAttribute "v" "age") (.constant (.intV 18)),
             .relational .LT (.labelAttribute "v" "age") (.constant (.intV 30))],
           .relational .EQ (.labelAttribute "w" "city") (.constant (.strV "x"))]) false).1
      = some (.logical .And
          [.relational .GT (.tagProperty "person" "age") (.constant (.intV 18)),
           .relational .LT (.tagProperty "person" "age") (.constant (.intV 30))]) ∧
    (MatchSolver.makeIndexFilter "person" "v"
        (.logical .And
          [.relational .GT (.labelAttribute "v" "age") (.constant (.intV 18)),
           .logical .And
            [.relational .LT (.labelAttribute "v" "age") (.constant (.intV 30)),
             .relational .EQ (.labelAttribute "w" "city") (.constant (.strV "x"))]]) false).1
      = some (.logical .And
          [.relational .GT (.tagProperty "person" "age") (.constant (.intV 18)),
           .relational .LT (.tagProperty "person" "age") (.constant (.intV 30))]) ∧
    (MatchSolver.makeIndexFilter "person" "v"
        (.logical .And
          [.relational .GT (.labelAttribute "v" "age") (.constant (.intV 18)),
           .relational .LT (.labelAttribute "v" "age") (.constant (.intV 30)),
           .relational .EQ (.labelAttribute "w" "city") (.constant (.strV "x"))]) false).1
      = some (.logical .And
          [.relational .GT (.tagProperty "person" "age") (.constant (.intV 18)),
           .relational .LT (.tagProperty "person" "age") (.constant (.intV 30))])) := by
  refine ⟨?_, ?_, ?_, ?_, ?_, ?_, rfl, rfl, rfl⟩
  · rw [makeIndexFilter_fst_eq, makeIndexFilter_fst_eq, pullAndsImpl_flat]
  · rw [makeIndexFilter_fst_eq, indexConjunct_eq_rewriteQualifying]
  · intro g hg
    rw [makeIndexFilter_fst_eq, makeIndexFilter_fst_eq, hg]
  · intro c cs h
    have hc : c.kind ≠ Kind.kLogicalAnd := h c (List.mem_cons_self _ _)
    have hcs : ∀ x ∈ cs, x.kind ≠ Kind.kLogicalAnd :=
      fun x hx => h x (List.mem_cons_of_mem _ hx)
    refine ⟨?_, ?_, ?_⟩
    · rw [makeIndexFilter_fst_eq, indexConjunct_eq_rewriteQualifying,
        pullAndsImpl_andFoldFrom cs c hcs, pullAndsImpl_of_not_and c hc]
      rfl
    · rw [makeIndexFilter_fst_eq, indexConjunct_eq_rewriteQualifying,
        pullAndsImpl_rightDeepAnd cs c h]
    · rw [makeIndexFilter_fst_eq, indexConjunct_eq_rewriteQualifying]
      simp only [ExpressionUtils.pullAndsImpl]
      rw [pullAndsOperands_of_no_and (c :: cs) h]
  · intro c hc hq
    obtain ⟨rel, hrel⟩ := Option.isSome_iff_exists.1
      ((qualifies_iff_indexConjunct label alias_ isEdgeProperties c).1 hq)
    obtain ⟨res, hres, hmem⟩ :=
      makeIndexFilter_extracts label alias_ isEdgeProperties filter c rel hc hrel
    refine ⟨res, rel, hres, ?_, hmem⟩
    rw [← indexConjunct_eq_rewriteQualifying]
    exact hrel
  · intro k field v hk
    have hne : k ≠ RelKind.NE := by
      rintro rfl
      revert hk
      decide
    constructor
    · intro hc
      exact makeIndexFilter_extracts label alias_ isEdgeProperties filter _ _ hc
        ((indexConjunct_eq_some_iff label alias_ isEdgeProperties _ _).2
          ⟨k, field, v, hne, Or.inl ⟨rfl, rfl⟩⟩)
    · intro hc
      exact makeIndexFilter_extracts label alias_ isEdgeProperties filter _ _ hc
        ((indexConjunct_eq_some_iff label alias_ isEdgeProperties _ _).2
          ⟨k, field, v, hne, Or.inr ⟨rfl, rfl⟩⟩)

/-- Witness for C17: the conjuncts `v.age > 18`, `v.age < 30`, `w.city == "x"`,
nested left-deep, right-deep and n-ary, alias `v`, label `person`, each give
`person.age > 18 AND person.age < 30`; and `30 > v.age`, three ANDs deep in
`w.city == "x" AND (v.name == "a" AND (v.age > 18 AND 30 > v.age))`, puts
`30 > person.age` among the conjuncts of the result. -/
theorem C17_makeIndexFilter_flattens_witness :
    ((MatchSolver.makeIndexFilter "person" "v"
        (andFoldFrom (.relational .GT (.labelAttribute "v" "age") (.constant (.intV 18)))
          [.relational .LT (.labelAttribute "v" "age") (.constant (.intV 30)),
           .relational .EQ (.labelAttribute "w" "city") (.constant (.strV "x"))]) false).1
      = some (.logical .And
          [.relational .GT (.tagProperty "person" "age") (.constant (.intV 18)),
           .relational .LT (.tagProperty "person" "age") (.constant (.intV 30))]) ∧
    (MatchSolver.makeIndexFilter "person" "v"
        (rightDeepAnd (.relational .GT (.labelAttribute "v" "age") (.constant (.intV 18)))
          [.relational .LT (.labelAttribute "v" "age") (.constant (.intV 30)),
           .relational .EQ (.labelAttribute "w" "city") (.constant (.strV "x"))]) false).1
      = some (.logical .And
          [.relational .GT (.tagProperty "person" "age") (.constant (.intV 18)),
           .relational .LT (.tagProperty "person" "age") (.constant (.intV 30))]) ∧
    (MatchSolver.makeIndexFilter "person" "v"
        (.logical .And
          [.relational .GT (.labelAttribute "v" "age") (.constant (.intV 18)),
           .relational .LT (.labelAttribute "v" "age") (.constant (.intV 30)),
           .relational .EQ (.labelAttribute "w" "city") (.constant (.strV "x"))]) false).1
      = some (.logical .And
          [.relational .GT (.tagProperty "person" "age") (.constant (.intV 18)),
           .relational .LT (.tagProperty "person" "age") (.constant (.intV 30))])) ∧
    (∃ res,
      (MatchSolver.makeIndexFilter "person" "v"
        (.logical .And
          [.relational .EQ (.labelAttribute "w" "city") (.constant (.strV "x")),
           .logical .And
            [.relational .EQ (.labelAttribute "v" "name") (.constant (.strV "a")),
             .logical .And
              [.relational .GT (.labelAttribute "v" "age") (.constant (.intV 18)),
               .relational .GT (.constant (.intV 30)) (.labelAttribute "v" "age")]]])
        false).1 = some res ∧
      Expr.relational .GT (.constant (.intV 30)) (.tagProperty "person" "age")
        ∈ ExpressionUtils.pullAndsImpl res) :=
  ⟨(C17_makeIndexFilter_flattens "person" "v" false .vertex).2.2.2.1
      (.relational .GT (.labelAttribute "v" "age") (.constant (.intV 18)))
      [.relational .LT (.labelAttribute "v" "age") (.constant (.intV 30)),
       .relational .EQ (.labelAttribute "w" "city") (.constant (.strV "x"))]
      (by
        intro x hx
        simp only [List.mem_cons, List.mem_singleton, List.not_mem_nil, or_false] at hx
        rcases hx with rfl | rfl | rfl <;> simp [Expr.kind, RelKind.toKind]),
    ((C17_makeIndexFilter_flattens "person" "v" false
      (.logical .And
        [.relational .EQ (.labelAttribute "w" "city") (.constant (.strV "x")),
         .logical .And
          [.relational .EQ (.labelAttribute "v" "name") (.constant (.strV "a")),
           .logical .And
            [.relational .GT (.labelAttribute "v" "age") (.constant (.intV 18)),
             .relational .GT (.constant (.intV 30)) (.labelAttribute "v" "age")]]])).2.2.2.2.2.1
      .GT "age" (.intV 30) (by decide)).2
      (by simp [ExpressionUtils.pullAndsImpl, ExpressionUtils.pullAndsOperands])⟩

/-- C18, as the claim states it, fails: for `v.age` the three rewriter lambdas
produce attributes with one and the same right side. -/
theorem C18_right_sides_coincide :
    ∃ right,
      MatchSolver.varPropRewriter (.labelAttribute "v" "age")
        = some (.attribute (.variableProperty "" "v") right) ∧
      MatchSolver.vertexRewriter (.labelAttribute "v" "age") = some (.attribute .vertex right) ∧
      MatchSolver.edgeRewriter (.labelAttribute "v" "age") = some (.attribute .edge right) :=
  ⟨.constant (.strV "age"), rfl, rfl, rfl⟩

/-- C18, amended: for a `LabelAttribute(L, field)` node the right side of the
attribute is, in all three rewrites, a `Constant` holding the field name; the
attributes differ in their left side only (`VariableProperty("", L)`, `Vertex`,
`Edge`). -/
theorem C18_rewriters_differ_on_the_left_only (L field : String) :
    MatchSolver.varPropRewriter (.labelAttribute L field)
      = some (.attribute (.variableProperty "" L) (.constant (.strV field))) ∧
    MatchSolver.vertexRewriter (.labelAttribute L field)
      = some (.attribute .vertex (.constant (.strV field))) ∧
    MatchSolver.edgeRewriter (.labelAttribute L field)
      = some (.attribute .edge (.constant (.strV field))) ∧
    Expr.variableProperty "" L ≠ .vertex ∧ Expr.variableProperty "" L ≠ .edge ∧
    Expr.vertex ≠ .edge :=
  ⟨varPropRewriter_labelAttribute L field, vertexRewriter_labelAttribute L field,
    edgeRewriter_labelAttribute L field, by simp, by simp, by simp⟩

/-- C19, as the claim states it, fails: the call on `(a AND b) AND c` leaves the
filter as the flat `AND(a, b, c)`, a different tree. -/
theorem C19_nested_and_is_flattened :
    (MatchSolver.makeIndexFilter "person" "v"
        (.logical .And
          [.logical .And
            [.relational .GT (.labelAttribute "v" "age") (.constant (.intV 18)),
             .relational .LT (.labelAttribute "v" "age") (.constant (.intV 30))],
           .relational .EQ (.labelAttribute "w" "city") (.constant (.strV "x"))])
        false).2
      = .logical .And
          [.relational .GT (.labelAttribute "v" "age") (.constant (.intV 18)),
           .relational .LT (.labelAttribute "v" "age") (.constant (.intV 30)),
           .relational .EQ (.labelAttribute "w" "city") (.constant (.strV "x"))] ∧
    (MatchSolver.makeIndexFilter "person" "v"
        (.logical .And
          [.logical .And
            [.relational .GT (.labelAttribute "v" "age") (.constant (.intV 18)),
             .relational .LT (.labelAttribute "v" "age") (.constant (.intV 30))],
           .relational .EQ (.labelAttribute "w" "city") (.constant (.strV "x"))])
        false).2
      ≠ .logical .And
          [.logical .And
            [.relational .GT (.labelAttribute "v" "age") (.constant (.intV 18)),
             .relational .LT (.labelAttribute "v" "age") (.constant (.intV 30))],
           .relational .EQ (.labelAttribute "w" "city") (.constant (.strV "x"))] := by
  constructor
  · rfl
  · intro h
    have h' : (Expr.logical .And
          [.relational .GT (.labelAttribute "v" "age") (.constant (.intV 18)),
           .relational .LT (.labelAttribute "v" "age") (.constant (.intV 30)),
           .relational .EQ (.labelAttribute "w" "city") (.constant (.strV "x"))])
        = .logical .And
          [.logical .And
            [.relational .GT (.labelAttribute "v" "age") (.constant (.intV 18)),
             .relational .LT (.labelAttribute "v" "age") (.constant (.intV 30))],
           .relational .EQ (.labelAttribute "w" "city") (.constant (.strV "x"))] := h
    simp at h'

/-- C19, amended: the call leaves the filter unchanged when its top level is not
a logical-AND, and when it is a logical-AND none of whose operands is a
logical-AND; a logical-AND with nested ANDs is left as the flat logical-AND of
its leaf conjuncts, in their order; in every case the leaf conjuncts of the
filter are the same before and after. -/
theorem C19_makeIndexFilter_filter_after (label alias_ : String) (filter : Expr)
    (isEdgeProperties : Bool) :
    (filter.kind ≠ Kind.kLogicalAnd →
      (MatchSolver.makeIndexFilter label alias_ filter isEdgeProperties).2 = filter) ∧
    (∀ ops, filter = .logical .And ops → (∀ o ∈ ops, o.kind ≠ Kind.kLogicalAnd) →
      (MatchSolver.makeIndexFilter label alias_ filter isEdgeProperties).2 = filter) ∧
    (∀ ops, filter = .logical .And ops →
      (MatchSolver.makeIndexFilter label alias_ filter isEdgeProperties).2
        = .logical .And (ExpressionUtils.pullAndsImpl filter)) ∧
    ExpressionUtils.pullAndsImpl
        (MatchSolver.makeIndexFilter label alias_ filter isEdgeProperties).2
      = ExpressionUtils.pullAndsImpl filter := by
  rw [makeIndexFilter_snd_eq]
  refine ⟨?_, ?_, ?_, ?_⟩
  · intro hk
    split
    · simp [Expr.kind, LogicalKind.toKind] at hk
    · rfl
  · rintro ops rfl hops
    simp only
    rw [pullAndsOperands_of_no_and ops hops]
  · rintro ops rfl
    simp only [ExpressionUtils.pullAndsImpl]
  · split
    · simp only [ExpressionUtils.pullAndsImpl]
      exact pullAndsOperands_idem _
    · rfl

/-- Witness for C19: `v.age > 18` (not a logical-AND) and the flat
`AND(v.age > 18, v.age < 30)` are unchanged by the call. -/
theorem C19_makeIndexFilter_filter_after_witness :
    (MatchSolver.makeIndexFilter "person" "v"
        (.relational .GT (.labelAttribute "v" "age") (.constant (.intV 18))) false).2
      = .relational .GT (.labelAttribute "v" "age") (.constant (.intV 18)) ∧
    (MatchSolver.makeIndexFilter "person" "v"
        (.logical .And
          [.relational .GT (.labelAttribute "v" "age") (.constant (.intV 18)),
           .relational .LT (.labelAttribute "v" "age") (.constant (.intV 30))]) false).2
      = .logical .And
          [.relational .GT (.labelAttribute "v" "age") (.constant (.intV 18)),
           .relational .LT (.labelAttribute "v" "age") (.constant (.intV 30))] :=
  ⟨(C19_makeIndexFilter_filter_after "person" "v"
      (.relational .GT (.labelAttribute "v" "age") (.constant (.intV 18))) false).1
      (by simp [Expr.kind, RelKind.toKind]),
    (C19_makeIndexFilter_filter_after "person" "v"
      (.logical .And
        [.relational .GT (.labelAttribute "v" "age") (.constant (.intV 18)),
         .relational .LT (.labelAttribute "v" "age") (.constant (.intV 30))]) false).2.1
      _ rfl (by
        intro o ho
        simp only [List.mem_cons, List.mem_singleton, List.not_mem_nil, or_false] at ho
        rcases ho with rfl | rfl <;> simp [Expr.kind, RelKind.toKind])⟩

/-- C20: each of the three label rewrites returns a tree that each of the three
rewrites returns unchanged; in particular each rewrite is idempotent. -/
theorem C20_rewrites_idempotent (e : Expr) :
    (∃ v, MatchSolver.rewriteLabel2Vertex e = some v ∧
      MatchSolver.rewriteLabel2Vertex v = some v ∧
      MatchSolver.rewriteLabel2Edge v = some v ∧
      MatchSolver.rewriteLabel2VarProp v = some v) ∧
    (∃ v, MatchSolver.rewriteLabel2Edge e = some v ∧
      MatchSolver.rewriteLabel2Vertex v = some v ∧
      MatchSolver.rewriteLabel2Edge v = some v ∧
      MatchSolver.rewriteLabel2VarProp v = some v) ∧
    (∃ v, MatchSolver.rewriteLabel2VarProp e = some v ∧
      MatchSolver.rewriteLabel2Vertex v = some v ∧
      MatchSolver.rewriteLabel2Edge v = some v ∧
      MatchSolver.rewriteLabel2VarProp v = some v) ∧
    (MatchSolver.rewriteLabel2Vertex e).bind MatchSolver.rewriteLabel2Vertex
      = MatchSolver.rewriteLabel2Vertex e ∧
    (MatchSolver.rewriteLabel2Edge e).bind MatchSolver.rewriteLabel2Edge
      = MatchSolver.rewriteLabel2Edge e ∧
    (MatchSolver.rewriteLabel2VarProp e).bind MatchSolver.rewriteLabel2VarProp
      = MatchSolver.rewriteLabel2VarProp e := by
  have key : ∀ v : Expr, v.hasLabel = false →
      MatchSolver.rewriteLabel2Vertex v = some v ∧
      MatchSolver.rewriteLabel2Edge v = some v ∧
      MatchSolver.rewriteLabel2VarProp v = some v := by
    intro v hv
    rw [rewriteLabel2Vertex_eq, rewriteLabel2Edge_eq, rewriteLabel2VarProp_eq]
    simp [substLabels_of_no_label _ _ v hv]
  have hV := substLabels_hasLabel (fun _ => Expr.vertex)
    (fun _ field => .attribute .vertex (.constant (.strV field)))
    (fun _ => rfl) (fun _ _ => rfl) e
  have hE := substLabels_hasLabel (fun _ => Expr.edge)
    (fun _ field => .attribute .edge (.constant (.strV field)))
    (fun _ => rfl) (fun _ _ => rfl) e
  have hP := substLabels_hasLabel (fun name => Expr.variableProperty "" name)
    (fun l field => .attribute (.variableProperty "" l) (.constant (.strV field)))
    (fun _ => rfl) (fun _ _ => rfl) e
  refine ⟨⟨_, rewriteLabel2Vertex_eq e, key _ hV⟩, ⟨_, rewriteLabel2Edge_eq e, key _ hE⟩,
    ⟨_, rewriteLabel2VarProp_eq e, key _ hP⟩, ?_, ?_, ?_⟩
  · rw [rewriteLabel2Vertex_eq e]
    exact (key _ hV).1
  · rw [rewriteLabel2Edge_eq e]
    exact (key _ hE).2.1
  · rw [rewriteLabel2VarProp_eq e]
    exact (key _ hP).2.2

end Nebula
